import Mathlib

/-!
The CWR to META conversion pipeline of go-meta, package `cwr` (`cwr/convert.go`).

A shallow embedding of `newRecord`, `substring`, `worker` and of the stages of
`Converter.ConvertCWR` (line dispatcher, worker pool, result collector, graph
builder, root encoder), followed by theorems about them.

Modelling conventions.

* A Go `string` is a sequence of bytes: `GoString` is `List UInt8`, `len` is the
  list length and `s[from:to]` is a byte slice. String constants of the source
  are written with `lit`.
* A Go slice is the list of its elements; the nil slice and the empty slice,
  which `len`, `range` and `append` do not tell apart, are both `[]`.
* A Go `map[string]V` is a finite partial function `GoString → Option V`;
  reading an absent key gives `none` (Go's zero value `nil` for the pointer and
  slice values used here).
* A run-time panic (slice out of range, write to a nil map, nil dereference) is
  an explicit outcome: `none` for the pure helpers, `Outcome.panic` for
  `ConvertCWR`.
* The job queue and the result queue are unbuffered channels: a send completes
  only when it is received. The dispatcher is modelled next to the number of
  workers still running, so that a send with no worker left blocks, and the
  order in which results arrive is a parameter (any permutation).
* `meta.Encode`, `Store.Put`, `Object.GetString`, `Object.Cid` and
  `strings.TrimSpace` belong to other packages; they are parameters, or fields
  of the observation record `Object`.
-/

namespace cwr

/-! ## Strings -/

/-- A Go string: an immutable sequence of bytes. -/
abbrev GoString := List UInt8

/-- The bytes of an ASCII string constant of the source. -/
def lit (s : String) : GoString := s.toList.map fun c => UInt8.ofNat c.toNat

/-- The Go slice expression `s[lo:hi]` on a string: it panics (`none`) unless
`0 <= lo <= hi <= len(s)`. -/
def sliceStr (s : GoString) (lo hi : Nat) : Option GoString :=
  if lo ≤ hi ∧ hi ≤ s.length then some ((s.drop lo).take (hi - lo)) else none

/-- The function `substring` of convert.go:
```go
if len(s) < from || len(s) < to { return "" }
return s[from:to]
``` -/
def substring (s : GoString) (from_ to_ : Nat) : Option GoString :=
  if s.length < from_ ∨ s.length < to_ then some [] else sliceStr s from_ to_

/-! ## Records -/

/-- Modelled from the spec: the `Record` struct, whose declaration is not in
src/. It is the "typed Record" of the Record Parser, with one string field for
every field `newRecord` assigns; `&Record{}` is the record of empty strings. -/
structure Record where
  RecordType : GoString := []
  SenderType : GoString := []
  SenderID : GoString := []
  SenderName : GoString := []
  TransactionType : GoString := []
  GroupID : GoString := []
  TransactionSequenceN : GoString := []
  RecordSequenceN : GoString := []
  Title : GoString := []
  LanguageCode : GoString := []
  SubmitteWorkNumber : GoString := []
  ISWC : GoString := []
  CopyRightDate : GoString := []
  DistributionCategory : GoString := []
  Duration : GoString := []
  RecordedIndicator : GoString := []
  TextMusicRelationship : GoString := []
  CompositeType : GoString := []
  VersionType : GoString := []
  PriorityFlag : GoString := []
  PublisherSequenceNumber : GoString := []
  deriving DecidableEq, Repr

/-- A Go `error` value (`nil` is `none : Option Error`). -/
abbrev Error := String

/-- Sequencing of two steps either of which may panic: the second runs on the
value of the first, and a panic (`none`) of the first is the panic of the whole. -/
@[noinline]
def andThen {α β : Type} (x : Option α) (f : α → Option β) : Option β :=
  match x with
  | none => none
  | some a => f a

/-- The function `newRecord` of convert.go. The result is `none` when a slice
expression panics, and otherwise the pair `(record, err)` the Go function
returns, `record = none` being the nil pointer. Every case assigns its fields
once to the zero record `&Record{}`, written here as one structure value whose
other fields keep their default `""`. `trimSpace` stands for
`strings.TrimSpace`. -/
def newRecord (trimSpace : GoString → GoString) (line : GoString) :
    Option (Option Record × Option Error) :=
  andThen (substring line 0 3) fun tag =>
  if tag = lit "HDR" then
    andThen (substring line 0 3) fun recordType =>
    andThen (substring line 3 6) fun senderType =>
    andThen (substring line 6 14) fun senderID =>
    andThen (substring line 14 59) fun senderName =>
    some (some { RecordType := recordType, SenderType := senderType,
                   SenderID := senderID, SenderName := trimSpace senderName }, none)
  else if tag = lit "GRH" then
    andThen (substring line 0 3) fun recordType =>
    andThen (substring line 3 6) fun transactionType =>
    andThen (substring line 6 11) fun groupID =>
    some (some { RecordType := recordType, TransactionType := transactionType,
                   GroupID := groupID }, none)
  else if tag = lit "GRT" then
    andThen (substring line 0 3) fun recordType =>
    andThen (substring line 3 8) fun groupID =>
    some (some { RecordType := recordType, GroupID := groupID }, none)
  else if tag = lit "TRL" then
    andThen (substring line 0 3) fun recordType =>
    some (some { RecordType := recordType }, none)
  else if tag = lit "NWR" ∨ tag = lit "REV" then
    andThen (substring line 0 3) fun recordType =>
    andThen (substring line 3 12) fun transactionSequenceN =>
    andThen (substring line 12 19) fun recordSequenceN =>
    andThen (substring line 19 79) fun title =>
    andThen (substring line 79 81) fun languageCode =>
    andThen (substring line 81 95) fun submitteWorkNumber =>
    andThen (substring line 95 106) fun iswc =>
    andThen (substring line 106 113) fun copyRightDate =>
    andThen (substring line 127 129) fun distributionCategory =>
    andThen (substring line 129 135) fun duration =>
    andThen (substring line 135 136) fun recordedIndicator =>
    andThen (substring line 136 139) fun textMusicRelationship =>
    andThen (substring line 140 142) fun compositeType =>
    andThen (substring line 142 145) fun versionType =>
    andThen (substring line 259 260) fun priorityFlag =>
    some (some { RecordType := recordType, TransactionSequenceN := transactionSequenceN,
                   RecordSequenceN := recordSequenceN, Title := trimSpace title,
                   LanguageCode := languageCode, SubmitteWorkNumber := submitteWorkNumber,
                   ISWC := iswc, CopyRightDate := copyRightDate,
                   DistributionCategory := distributionCategory, Duration := duration,
                   RecordedIndicator := recordedIndicator,
                   TextMusicRelationship := textMusicRelationship,
                   CompositeType := compositeType, VersionType := versionType,
                   PriorityFlag := priorityFlag }, none)
  else if tag = lit "SPU" then
    andThen (substring line 0 3) fun recordType =>
    andThen (substring line 3 12) fun transactionSequenceN =>
    andThen (substring line 12 19) fun recordSequenceN =>
    andThen (substring line 19 21) fun publisherSequenceNumber =>
    some (some { RecordType := recordType, TransactionSequenceN := transactionSequenceN,
                   RecordSequenceN := recordSequenceN,
                   PublisherSequenceNumber := publisherSequenceNumber }, none)
  else
    some (none, none)

/-! ## Maps, identifiers and objects -/

/-- A Go `map[string]V`: the partial function from keys to values. -/
abbrev StrMap (V : Type) := GoString → Option V

/-- The empty map `make(map[string]V)`. -/
def mapEmpty {V : Type} : StrMap V := fun _ => none

/-- The map after the assignment `m[k] = v`. -/
def mapSet {V : Type} (m : StrMap V) (k : GoString) (v : V) : StrMap V :=
  fun j => if j = k then some v else m j

/-- A content identifier (`*cid.Cid`), an opaque comparable value. Every
identifier returned by `Object.Cid()` is a non-nil pointer, so a nil `*cid.Cid`
only arises from reading an absent map key (`none : Option Cid`). -/
abbrev Cid := Nat

/-- What ConvertCWR observes of a `*meta.Object`: the result of
`obj.GetString("record_type")` and the value of `obj.Cid()`. -/
structure Object where
  recordType : Except Error GoString
  cid : Cid

/-- The struct `recordJob`. -/
structure recordJob where
  record : Record
  index : Nat
  deriving DecidableEq

/-- The struct `objectResult`; `obj = none` is the nil pointer and `err = none`
the nil error. -/
structure objectResult where
  obj : Option Object
  index : Nat
  err : Option Error

/-- The struct `Transaction`. -/
structure Transaction where
  MainRecord : StrMap Cid
  DetailRecords : StrMap (List Cid)

/-- The maps created by `make(map[string][]Transaction)`, in order of creation.
A Go map value is a reference: copying a `Group` copies the reference, and a
write through one copy is seen through every other. -/
abbrev Heap := List (StrMap (List Transaction))

/-- The struct `Group` as the program holds it: `Transactions` is a reference
into the `Heap` (`none` is the nil map of the zero value `var group Group`). -/
structure Group where
  Record : Option Cid
  Transactions : Option Nat

/-- The struct `Cwr` as the program holds it. -/
structure Cwr where
  Records : StrMap Cid
  Groups : List Group

/-- A `Group` with the contents of its transaction map read out of the heap, as
an encoder that walks the value sees it. -/
structure GroupValue where
  Record : Option Cid
  Transactions : Option (StrMap (List Transaction))

/-- The File: a `Cwr` with every group read out of the heap. -/
structure File where
  Records : StrMap Cid
  Groups : List GroupValue

/-- The result of a run: a value, a returned Go error, or a run-time panic. -/
inductive Outcome (α : Type) where
  | ok (a : α)
  | error (e : Error)
  | panic

/-! ## The graph builder (convert.go lines 89-98 and 149-182) -/

/-- The local variables of ConvertCWR that the graph builder loop reads and
writes, with the heap of transaction maps. -/
structure BuilderState where
  cwr : Cwr
  nwr : Transaction
  spus : List Cid
  group : Group
  heap : Heap

/-- The state set up by lines 91-97: `cwr.Records`, `nwr.MainRecord` and
`nwr.DetailRecords` are fresh empty maps, `cwr.Groups` and `spus` are nil
slices, `group` is the zero Group (nil header, nil map). -/
def BuilderState.init : BuilderState :=
  { cwr := { Records := mapEmpty, Groups := [] }
    nwr := { MainRecord := mapEmpty, DetailRecords := mapEmpty }
    spus := []
    group := { Record := none, Transactions := none }
    heap := [] }

/-- The five statements of lines 163-167, repeated as lines 172-176:
```go
nwr.DetailRecords["SPU"] = spus
spus = []*cid.Cid{}
group.Transactions["NWR"] = append(group.Transactions["NWR"], nwr)
nwr.MainRecord = make(map[string]*cid.Cid)
nwr.DetailRecords = make(map[string][]*cid.Cid)
```
The write to `group.Transactions` panics when that map is nil. The appended
Transaction keeps the two maps `nwr` held, which nothing writes to afterwards
since `nwr` gets fresh ones. -/
def flush (s : BuilderState) : Option BuilderState :=
  let nwr : Transaction :=
    { s.nwr with DetailRecords := mapSet s.nwr.DetailRecords (lit "SPU") s.spus }
  match s.group.Transactions with
  | none => none
  | some a =>
    match s.heap[a]? with
    | none => none
    | some m =>
      some { s with
        spus := []
        heap := s.heap.set a (mapSet m (lit "NWR") ((m (lit "NWR")).getD [] ++ [nwr]))
        nwr := { MainRecord := mapEmpty, DetailRecords := mapEmpty } }

/-- The `switch recordType` of lines 155-181 for an object with record type
`recordType` and identifier `c` (`obj.Cid()`); `none` is a panic. -/
def step (s : BuilderState) (recordType : GoString) (c : Cid) : Option BuilderState :=
  if recordType = lit "HDR" ∨ recordType = lit "TRL" then
    some { s with cwr := { s.cwr with Records := mapSet s.cwr.Records recordType c } }
  else if recordType = lit "GRH" then
    some { s with
      group := { Record := some c, Transactions := some s.heap.length }
      heap := s.heap ++ [mapEmpty] }
  else if recordType = lit "GRT" then
    andThen (flush s) fun s =>
    some { s with cwr := { s.cwr with Groups := s.cwr.Groups ++ [s.group] } }
  else if recordType = lit "NWR" ∨ recordType = lit "REV" then
    andThen (if (s.nwr.MainRecord recordType).isSome then flush s else some s) fun s =>
    some { s with nwr := { s.nwr with MainRecord := mapSet s.nwr.MainRecord recordType c } }
  else if recordType = lit "SPU" then
    some { s with spus := s.spus ++ [c] }
  else
    some s

/-- A Go `map[int]*meta.Object`: its entries (an absent key is `none`, a key
holding the nil pointer is `some none`) and its number of keys `len`. -/
structure IntMap where
  entries : Nat → Option (Option Object)
  len : Nat

/-- The empty map `make(map[int]*meta.Object)`. -/
def IntMap.empty : IntMap := { entries := fun _ => none, len := 0 }

/-- The map after `m[k] = v`: a new key makes the map one longer. -/
def IntMap.set (m : IntMap) (k : Nat) (v : Option Object) : IntMap :=
  { entries := fun j => if j = k then some v else m.entries j
    len := if (m.entries k).isSome then m.len else m.len + 1 }

/-- The index expression `m[i]`: the nil pointer when the key is absent. -/
def IntMap.lookup (m : IntMap) (i : Nat) : Option Object := (m.entries i).join

/-- The body of the loop of lines 149-182 for the object `obj`: read the record
type (a failure is returned as the error of ConvertCWR), then the `switch`. -/
def visitObj (s : BuilderState) (obj : Object) : Outcome BuilderState :=
  match obj.recordType with
  | .error err => .error err
  | .ok recordType =>
    match step s recordType obj.cid with
    | none => .panic
    | some s => .ok s

/-- One iteration of the loop of lines 149-182 at index `i`, with
`obj := recordObjs[i]`. Calling `GetString` on the nil pointer read from an
absent key is a nil dereference. -/
def visit (recordObjs : IntMap) (s : BuilderState) (i : Nat) : Outcome BuilderState :=
  match recordObjs.lookup i with
  | none => .panic
  | some obj => visitObj s obj

/-- The loop `for i := 0; i < len(recordObjs); i++`, run over the indices that
remain; an error return or a panic ends it. -/
def loopOver (recordObjs : IntMap) : List Nat → BuilderState → Outcome BuilderState
  | [], s => .ok s
  | i :: rest, s =>
    match visit recordObjs s i with
    | .ok s => loopOver recordObjs rest s
    | .error err => .error err
    | .panic => .panic

/-- The graph builder: the loop of lines 149-182 from the initial state. -/
def graphBuilder (recordObjs : IntMap) : Outcome BuilderState :=
  loopOver recordObjs (List.range recordObjs.len) BuilderState.init

/-- A group as `meta.Encode(cwr)` reads it, its map taken from the heap. -/
def groupValue (heap : Heap) (g : Group) : GroupValue :=
  { Record := g.Record, Transactions := g.Transactions.bind fun a => heap[a]? }

/-- The value of `cwr` that line 183 passes to `meta.Encode`. -/
def fileOf (s : BuilderState) : File :=
  { Records := s.cwr.Records, Groups := s.cwr.Groups.map (groupValue s.heap) }

/-! ## Collector and root encoder -/

/-- One iteration of the collector loop `for v := range results` (lines
135-141) on the pair `(err, recordObjs)`. -/
def collectStep (acc : Option Error × IntMap) (v : objectResult) : Option Error × IntMap :=
  match v.err with
  | some err => (some err, acc.2)
  | none => (acc.1, acc.2.set v.index v.obj)

/-- The collector (lines 134-141) on the results in their order of arrival. -/
def collector (results : List objectResult) : Option Error × IntMap :=
  results.foldl collectStep (none, IntMap.empty)

/-- ConvertCWR from line 134 on, for the results in their order of arrival:
collector, error check, graph builder, then `meta.Encode(cwr)`, `store.Put`
and `obj.Cid()`. `encode` and `put` stand for `meta.Encode` and `Store.Put`. -/
def ConvertCWR (encode : File → Except Error Object) (put : Object → Option Error)
    (results : List objectResult) : Outcome Cid :=
  match collector results with
  | (some err, _) => .error err
  | (none, recordObjs) =>
    match graphBuilder recordObjs with
    | .panic => .panic
    | .error err => .error err
    | .ok s =>
      match encode (fileOf s) with
      | .error err => .error err
      | .ok obj =>
        match put obj with
        | some err => .error err
        | none => .ok obj.cid


/-! ## The extraction table of `newRecord` -/

/-- One entry of the extraction table: the Record field assigned, the column
range `[start, stop)` passed to `substring`, and whether the value goes through
`strings.TrimSpace`. -/
structure FieldSpec where
  get : Record → GoString
  start : Nat
  stop : Nat
  trimmed : Bool

/-- The tags `newRecord` has a case for. -/
def supportedTags : List GoString :=
  [lit "HDR", lit "GRH", lit "GRT", lit "TRL", lit "NWR", lit "REV", lit "SPU"]

/-- The extraction table: for each tag, the `substring(line, start, stop)`
calls of its case in `newRecord`, in source order. -/
def fieldTable (tag : GoString) : List FieldSpec :=
  if tag = lit "HDR" then
    [⟨Record.RecordType, 0, 3, false⟩, ⟨Record.SenderType, 3, 6, false⟩,
     ⟨Record.SenderID, 6, 14, false⟩, ⟨Record.SenderName, 14, 59, true⟩]
  else if tag = lit "GRH" then
    [⟨Record.RecordType, 0, 3, false⟩, ⟨Record.TransactionType, 3, 6, false⟩,
     ⟨Record.GroupID, 6, 11, false⟩]
  else if tag = lit "GRT" then
    [⟨Record.RecordType, 0, 3, false⟩, ⟨Record.GroupID, 3, 8, false⟩]
  else if tag = lit "TRL" then
    [⟨Record.RecordType, 0, 3, false⟩]
  else if tag = lit "NWR" ∨ tag = lit "REV" then
    [⟨Record.RecordType, 0, 3, false⟩, ⟨Record.TransactionSequenceN, 3, 12, false⟩,
     ⟨Record.RecordSequenceN, 12, 19, false⟩, ⟨Record.Title, 19, 79, true⟩,
     ⟨Record.LanguageCode, 79, 81, false⟩, ⟨Record.SubmitteWorkNumber, 81, 95, false⟩,
     ⟨Record.ISWC, 95, 106, false⟩, ⟨Record.CopyRightDate, 106, 113, false⟩,
     ⟨Record.DistributionCategory, 127, 129, false⟩, ⟨Record.Duration, 129, 135, false⟩,
     ⟨Record.RecordedIndicator, 135, 136, false⟩,
     ⟨Record.TextMusicRelationship, 136, 139, false⟩,
     ⟨Record.CompositeType, 140, 142, false⟩, ⟨Record.VersionType, 142, 145, false⟩,
     ⟨Record.PriorityFlag, 259, 260, false⟩]
  else if tag = lit "SPU" then
    [⟨Record.RecordType, 0, 3, false⟩, ⟨Record.TransactionSequenceN, 3, 12, false⟩,
     ⟨Record.RecordSequenceN, 12, 19, false⟩, ⟨Record.PublisherSequenceNumber, 19, 21, false⟩]
  else
    []

/-- The value `substring(s, a, b)` returns when `a <= b`: empty when the string
is shorter than `b`, the bytes `s[a:b]` otherwise. -/
def field (s : GoString) (a b : Nat) : GoString :=
  if s.length < b then [] else (s.drop a).take (b - a)

/-! ## Object sequences -/

/-- An object whose record type reads back as `tag` and whose identifier is `c`. -/
def tagged (tag : GoString) (c : Cid) : Object := { recordType := .ok tag, cid := c }

/-- The map `recordObjs` that holds the objects `objs` at the keys
`0, ..., len(objs) - 1`: the object sequence in index order. -/
def denseMap (objs : List Object) : IntMap :=
  { entries := fun i => objs[i]?.map some, len := objs.length }

/-- The loop body run over a list of objects in turn, stopping at the first
error or panic. -/
def runObjs : List Object → BuilderState → Outcome BuilderState
  | [], s => .ok s
  | obj :: rest, s =>
    match visitObj s obj with
    | .ok s => runObjs rest s
    | .error err => .error err
    | .panic => .panic

/-- The error results of a sequence of results, in order of arrival. -/
def errorsOf (results : List objectResult) : List Error :=
  results.filterMap fun v => v.err

/-! ## The worker pool (convert.go lines 49, 99-106 and 239-255) -/

/-- The variable `concurrentWorkNum`: the number of worker goroutines. -/
def concurrentWorkNum : Nat := 16

/-- The function `worker` of convert.go, on the jobs this worker receives from
the job queue, in order: the results it sends. `encode` and `put` stand for
`meta.Encode` and `Store.Put`. After a failed encode or put the worker sends
one error result and returns, so it receives nothing further. -/
def worker (encode : Record → Except Error Object) (put : Object → Option Error) :
    List recordJob → List objectResult
  | [] => []
  | job :: rest =>
    if job.record.RecordType ≠ [] then
      match encode job.record with
      | .error err => [⟨none, 0, some err⟩]
      | .ok obj =>
        match put obj with
        | some err => [⟨none, 0, some err⟩]
        | none => ⟨some obj, job.index, none⟩ :: worker encode put rest
    else
      worker encode put rest

/-- Whether the worker that receives `job` returns on it (the `return` of line
246 or of line 250). -/
def workerStops (encode : Record → Except Error Object) (put : Object → Option Error)
    (job : recordJob) : Bool :=
  if job.record.RecordType ≠ [] then
    match encode job.record with
    | .error _ => true
    | .ok obj => (put obj).isSome
  else
    false

/-- The sends `jobs <- recordJob` of the dispatcher (line 119) against `alive`
running workers. The job queue is unbuffered, so a send completes only when a
running worker receives the job; the worker that receives a job on which it
fails returns, which leaves one running worker fewer whichever worker it was.
The result is `true` when every send completes, so that the dispatcher reaches
`close(jobs)` (line 126), and `false` when a send finds no running worker and
blocks for ever. -/
def sendsComplete (encode : Record → Except Error Object) (put : Object → Option Error) :
    List recordJob → Nat → Bool
  | [], _ => true
  | _ :: _, 0 => false
  | job :: rest, alive + 1 =>
    sendsComplete encode put rest (if workerStops encode put job then alive else alive + 1)

/-! ## Dispatcher -/

/-- What the dispatcher goroutine (lines 108-127) has done when it stops: the
jobs whose send `jobs <- recordJob` (line 119) completed, in order, the error
results it sent, and whether it reached `close(jobs)` (line 126). -/
structure Dispatched where
  jobs : List recordJob
  results : List objectResult
  closed : Bool

/-- The send `results <- objectResult{nil, 0, err}` of line 115 or of line 124,
made when there is an error, and the `close(jobs)` of line 126 that follows it.
`alive` is the number of workers that have not received a job on which they
return. While it is positive the result queue is open (it is closed only after
every worker has returned, lines 129-132) and the collector receives the result.
When it is 0 the goroutine of lines 129-132 closes the result queue as soon as
the workers have returned, and `closedFirst` tells whether it does so before the
send: a send on a closed channel panics (`none`). -/
def reportAndClose (closedFirst : Bool) (alive : Nat) : Option Error → Option Dispatched
  | none => some ⟨[], [], true⟩
  | some err =>
    if alive = 0 ∧ closedFirst = true then none
    else some ⟨[], [⟨none, 0, some err⟩], true⟩

/-- The loop `for scanner.Scan()` of lines 112-122 over the lines the scanner
yields, followed by lines 123-126. `index` is the loop's counter and `alive`
the number of workers that have not received a job on which they return;
`scanErr` is the error the scanner stopped with after the last line, if any
(after the `break` of line 116 the scanner has met no error). `none` is a panic
of the goroutine.

The job queue is unbuffered (line 84): the send of line 119 completes only when
a running worker receives the job. The worker that receives a job on which
`meta.Encode` or `Store.Put` fails returns (lines 244-251), which leaves one
running worker fewer whichever worker it was. A send that finds no running
worker blocks for ever: the goroutine stops there, with the job not sent and the
job queue not closed. -/
def dispatchLoop (trimSpace : GoString → GoString) (encode : Record → Except Error Object)
    (put : Object → Option Error) (closedFirst : Bool) (scanErr : Option Error) :
    List GoString → Nat → Nat → Option Dispatched
  | [], _, alive => reportAndClose closedFirst alive scanErr
  | line :: rest, index, alive =>
    match newRecord trimSpace line with
    | none => none
    | some (_, some err) => reportAndClose closedFirst alive (some err)
    | some (some record, none) =>
      match alive with
      | 0 => some ⟨[], [], false⟩
      | running + 1 =>
        (dispatchLoop trimSpace encode put closedFirst scanErr rest (index + 1)
          (if workerStops encode put ⟨record, index⟩ then running else running + 1)).map
          fun d => { d with jobs := ⟨record, index⟩ :: d.jobs }
    | some (none, none) => dispatchLoop trimSpace encode put closedFirst scanErr rest index alive

/-- The dispatcher goroutine of lines 108-127 next to the `concurrentWorkNum`
workers started in lines 99-106: the loop from `index := 0`. `lines` are the
lines `scanner.Scan()` yields, `encode` and `put` stand for `meta.Encode` and
`Store.Put` as the workers call them. -/
def dispatcher (trimSpace : GoString → GoString) (encode : Record → Except Error Object)
    (put : Object → Option Error) (closedFirst : Bool) (lines : List GoString)
    (scanErr : Option Error) : Option Dispatched :=
  dispatchLoop trimSpace encode put closedFirst scanErr lines 0 concurrentWorkNum

/-! ## Well-formed builder states and the last object of a tag -/

/-- Every map reference held by a Group of the state points into the heap. The
initial state satisfies this and `step` keeps it, since references are only
created by `make` in the GRH case. -/
def BuilderState.WF (s : BuilderState) : Prop :=
  (∀ g ∈ s.cwr.Groups, ∀ a, g.Transactions = some a → a < s.heap.length) ∧
  (∀ a, s.group.Transactions = some a → a < s.heap.length)

/-- Whether `GetString("record_type")` succeeds on the object with value `tag`. -/
def hasTag (tag : GoString) (obj : Object) : Bool :=
  match obj.recordType with
  | .ok recordType => decide (recordType = tag)
  | .error _ => false

/-- The identifier of the last object of the sequence whose record type is
`tag`, if there is one. -/
def lastCid (tag : GoString) (objs : List Object) : Option Cid :=
  (objs.reverse.find? (hasTag tag)).map fun obj => obj.cid

/-! ## Theorems: `substring` and `newRecord` -/

theorem substring_eq (s : GoString) (a b : Nat) (h : a ≤ b) :
    substring s a b = some (field s a b) := by
  unfold substring sliceStr field
  by_cases hb : s.length < b
  · simp [hb]
  · have ha : ¬ s.length < a := by omega
    have hle : b ≤ s.length := by omega
    simp [hb, ha, h, hle]

theorem andThen_some {α β : Type} (a : α) (f : α → Option β) : andThen (some a) f = f a := rfl

theorem andThen_none {α β : Type} (f : α → Option β) : andThen none f = none := rfl

theorem lit_HDR : lit "HDR" = [72, 68, 82] := by decide
theorem lit_GRH : lit "GRH" = [71, 82, 72] := by decide
theorem lit_GRT : lit "GRT" = [71, 82, 84] := by decide
theorem lit_TRL : lit "TRL" = [84, 82, 76] := by decide
theorem lit_NWR : lit "NWR" = [78, 87, 82] := by decide
theorem lit_REV : lit "REV" = [82, 69, 86] := by decide
theorem lit_SPU : lit "SPU" = [83, 80, 85] := by decide

theorem field_tag (line tag : GoString) (h3 : tag.length = 3) :
    field line 0 3 = tag ↔ line.take 3 = tag := by
  unfold field
  by_cases hlen : line.length < 3
  · have h1 : (line.take 3).length ≠ 3 := by simp; omega
    constructor
    · intro h
      simp [hlen] at h
      subst h
      simp at h3
    · intro h
      rw [h] at h1
      exact absurd h3 h1
  · simp [hlen]

theorem newRecord_eq (trimSpace : GoString → GoString) (line : GoString) :
    newRecord trimSpace line =
      some (
        if field line 0 3 = lit "HDR" then
          (some { RecordType := field line 0 3, SenderType := field line 3 6,
                  SenderID := field line 6 14, SenderName := trimSpace (field line 14 59) }, none)
        else if field line 0 3 = lit "GRH" then
          (some { RecordType := field line 0 3, TransactionType := field line 3 6,
                  GroupID := field line 6 11 }, none)
        else if field line 0 3 = lit "GRT" then
          (some { RecordType := field line 0 3, GroupID := field line 3 8 }, none)
        else if field line 0 3 = lit "TRL" then
          (some { RecordType := field line 0 3 }, none)
        else if field line 0 3 = lit "NWR" ∨ field line 0 3 = lit "REV" then
          (some { RecordType := field line 0 3, TransactionSequenceN := field line 3 12,
                  RecordSequenceN := field line 12 19, Title := trimSpace (field line 19 79),
                  LanguageCode := field line 79 81, SubmitteWorkNumber := field line 81 95,
                  ISWC := field line 95 106, CopyRightDate := field line 106 113,
                  DistributionCategory := field line 127 129, Duration := field line 129 135,
                  RecordedIndicator := field line 135 136,
                  TextMusicRelationship := field line 136 139,
                  CompositeType := field line 140 142, VersionType := field line 142 145,
                  PriorityFlag := field line 259 260 }, none)
        else if field line 0 3 = lit "SPU" then
          (some { RecordType := field line 0 3, TransactionSequenceN := field line 3 12,
                  RecordSequenceN := field line 12 19,
                  PublisherSequenceNumber := field line 19 21 }, none)
        else (none, none)) := by
  unfold newRecord
  simp only [substring_eq _ _ _ (by decide : 0 ≤ 3), substring_eq _ _ _ (by decide : 3 ≤ 6),
    substring_eq _ _ _ (by decide : 6 ≤ 14), substring_eq _ _ _ (by decide : 14 ≤ 59),
    substring_eq _ _ _ (by decide : 6 ≤ 11), substring_eq _ _ _ (by decide : 3 ≤ 8),
    substring_eq _ _ _ (by decide : 3 ≤ 12), substring_eq _ _ _ (by decide : 12 ≤ 19),
    substring_eq _ _ _ (by decide : 19 ≤ 79), substring_eq _ _ _ (by decide : 79 ≤ 81),
    substring_eq _ _ _ (by decide : 81 ≤ 95), substring_eq _ _ _ (by decide : 95 ≤ 106),
    substring_eq _ _ _ (by decide : 106 ≤ 113), substring_eq _ _ _ (by decide : 127 ≤ 129),
    substring_eq _ _ _ (by decide : 129 ≤ 135), substring_eq _ _ _ (by decide : 135 ≤ 136),
    substring_eq _ _ _ (by decide : 136 ≤ 139), substring_eq _ _ _ (by decide : 140 ≤ 142),
    substring_eq _ _ _ (by decide : 142 ≤ 145), substring_eq _ _ _ (by decide : 259 ≤ 260),
    substring_eq _ _ _ (by decide : 19 ≤ 21), andThen_some]
  split_ifs <;> rfl


theorem field_short (s : GoString) (a b : Nat) (h : s.length < b) : field s a b = [] := by
  simp [field, h]

theorem field_long (s : GoString) (a b : Nat) (h : b ≤ s.length) :
    field s a b = (s.drop a).take (b - a) := by
  have : ¬ s.length < b := by omega
  simp [field, this]

theorem tag_length (line : GoString) (h : line.take 3 ∈ supportedTags) : 3 ≤ line.length := by
  have h3 : (line.take 3).length = 3 := by
    simp only [supportedTags, List.mem_cons, List.mem_singleton, List.not_mem_nil, or_false] at h
    rcases h with h | h | h | h | h | h | h <;> rw [h] <;> decide
  simp at h3
  omega

theorem field_spec (trimSpace : GoString → GoString) (htrim : trimSpace [] = [])
    (line : GoString) (a b : Nat) (t : Bool) :
    (line.length < b → (if t then trimSpace else id) (field line a b) = []) ∧
    (b ≤ line.length → (if t then trimSpace else id) (field line a b)
        = (if t then trimSpace else id) ((line.drop a).take (b - a))) := by
  constructor
  · intro h
    rw [field_short _ _ _ h]
    cases t <;> simp [htrim]
  · intro h
    rw [field_long _ _ _ h]

theorem newRecord_supported (trimSpace : GoString → GoString) (line : GoString)
    (htag : line.take 3 ∈ supportedTags) :
    ∃ r, newRecord trimSpace line = some (some r, none) ∧ r.RecordType = line.take 3 ∧
      ∀ f ∈ fieldTable (line.take 3),
        f.get r = (if f.trimmed then trimSpace else id) (field line f.start f.stop) := by
  have hlen := tag_length line htag
  have h03 : field line 0 3 = line.take 3 := by simp [field_long _ _ _ hlen]
  rw [newRecord_eq, h03]
  simp only [supportedTags, List.mem_cons, List.mem_singleton, List.not_mem_nil, or_false] at htag
  rcases htag with h | h | h | h | h | h | h <;> rw [h] <;>
    simp only [lit_HDR, lit_GRH, lit_GRT, lit_TRL, lit_NWR, lit_REV, lit_SPU] <;>
    simp +decide only [if_true, if_false, or_true, true_or, or_false, false_or] <;>
    refine ⟨_, rfl, rfl, ?_⟩ <;>
    simp only [fieldTable, lit_HDR, lit_GRH, lit_GRT, lit_TRL, lit_NWR, lit_REV, lit_SPU] <;>
    simp +decide only [if_true, if_false, or_true, true_or, or_false, false_or] <;>
    simp only [List.forall_mem_cons, List.forall_mem_singleton, List.not_mem_nil, false_imp_iff,
      implies_true, and_true] <;>
    repeat' apply And.intro
  all_goals first
    | rfl
    | simp [h03, h, lit_HDR, lit_GRH, lit_GRT, lit_TRL, lit_NWR, lit_REV, lit_SPU]

theorem newRecord_unsupported (trimSpace : GoString → GoString) (line : GoString)
    (h : line.take 3 ∉ supportedTags) : newRecord trimSpace line = some (none, none) := by
  simp only [supportedTags, List.mem_cons, List.mem_singleton, List.not_mem_nil, or_false,
    not_or] at h
  obtain ⟨h1, h2, h3, h4, h5, h6, h7⟩ := h
  rw [newRecord_eq]
  rw [if_neg (mt (field_tag line _ (by decide)).1 h1),
    if_neg (mt (field_tag line _ (by decide)).1 h2),
    if_neg (mt (field_tag line _ (by decide)).1 h3),
    if_neg (mt (field_tag line _ (by decide)).1 h4),
    if_neg (by
      rintro (h | h)
      · exact h5 ((field_tag line _ (by decide)).1 h)
      · exact h6 ((field_tag line _ (by decide)).1 h)),
    if_neg (mt (field_tag line _ (by decide)).1 h7)]

/-! ### Claims C5 to C8 -/

/-- C5: for a line with a recognised tag, `newRecord` reports no error, and each
field of the tag's extraction table whose range `[start, stop)` ends past the
line is the empty string (no partial prefix), while a field whose range lies
within the line is the bytes `line[start:stop]`, passed through
`strings.TrimSpace` for the two trimmed fields (`htrim`: TrimSpace of the empty
string is the empty string). -/
theorem newRecord_fields (trimSpace : GoString → GoString) (htrim : trimSpace [] = [])
    (line : GoString) (htag : line.take 3 ∈ supportedTags) :
    ∃ r, newRecord trimSpace line = some (some r, none) ∧
      ∀ f ∈ fieldTable (line.take 3),
        (line.length < f.stop → f.get r = []) ∧
        (f.stop ≤ line.length →
          f.get r = (if f.trimmed then trimSpace else id)
            ((line.drop f.start).take (f.stop - f.start))) := by
  obtain ⟨r, hr, _, hf⟩ := newRecord_supported trimSpace line htag
  refine ⟨r, hr, fun f hmem => ?_⟩
  rw [hf f hmem]
  exact field_spec trimSpace htrim line f.start f.stop f.trimmed

/-- Witness for C5: a group-header line of 8 bytes, whose GroupID range (columns
6 to 11) runs past the line. -/
theorem newRecord_fields_witness :
    ∃ r, newRecord id (lit "GRHAGR00") = some (some r, none) ∧
      ∀ f ∈ fieldTable ((lit "GRHAGR00").take 3),
        ((lit "GRHAGR00").length < f.stop → f.get r = []) ∧
        (f.stop ≤ (lit "GRHAGR00").length →
          f.get r = (if f.trimmed then id else id)
            (((lit "GRHAGR00").drop f.start).take (f.stop - f.start))) :=
  newRecord_fields id rfl (lit "GRHAGR00") (by decide)

/-- C6: `newRecord` never panics and never returns an error, whatever the line
(the empty line and lines shorter than three bytes included): `substring` with
`from <= to` always slices within bounds, and every range of the extraction
table has `start <= stop`. -/
theorem newRecord_total (trimSpace : GoString → GoString) :
    (∀ line : GoString, ∃ r, newRecord trimSpace line = some (r, none)) ∧
    (∀ (s : GoString) (a b : Nat), a ≤ b → ∃ v, substring s a b = some v) ∧
    (∀ tag, ∀ f ∈ fieldTable tag, f.start ≤ f.stop) := by
  refine ⟨fun line => ?_, fun s a b h => ⟨_, substring_eq s a b h⟩, fun tag => ?_⟩
  · rw [newRecord_eq]
    split_ifs <;> exact ⟨_, rfl⟩
  · unfold fieldTable
    split_ifs <;> simp

/-- C7: a line whose first three bytes are not a supported tag (in particular a
line shorter than three bytes) parses to no record and no error; a line whose
first three bytes are a supported tag parses to a record and no error. -/
theorem newRecord_tags (trimSpace : GoString → GoString) (line : GoString) :
    (line.take 3 ∉ supportedTags → newRecord trimSpace line = some (none, none)) ∧
    (line.take 3 ∈ supportedTags → ∃ r, newRecord trimSpace line = some (some r, none)) := by
  constructor
  · exact newRecord_unsupported trimSpace line
  · intro h
    obtain ⟨r, hr, _⟩ := newRecord_supported trimSpace line h
    exact ⟨r, hr⟩

/-- Witness for C7: the two-byte line `GR`, the unsupported tag `ACK` and the
trailer line `TRL`. -/
theorem newRecord_tags_witness :
    newRecord id (lit "GR") = some (none, none) ∧
    newRecord id (lit "ACK0001") = some (none, none) ∧
    ∃ r, newRecord id (lit "TRL") = some (some r, none) :=
  ⟨(newRecord_tags id (lit "GR")).1 (by decide),
   (newRecord_tags id (lit "ACK0001")).1 (by decide),
   (newRecord_tags id (lit "TRL")).2 (by decide)⟩

/-- C8: for a line whose first three bytes are a supported tag, the parsed
record has `RecordType` equal to those three bytes; hence, for an encoder that
preserves the field (`GetString("record_type")` on the encoded object returns
the record's `RecordType`), reading the tag back gives the original tag. -/
theorem newRecord_recordType (trimSpace : GoString → GoString) (line : GoString)
    (htag : line.take 3 ∈ supportedTags) :
    ∃ r, newRecord trimSpace line = some (some r, none) ∧ r.RecordType = line.take 3 ∧
      ∀ (encode : Record → Except Error Object) (obj : Object),
        (∀ r0 o, encode r0 = .ok o → o.recordType = .ok r0.RecordType) →
        encode r = .ok obj → obj.recordType = .ok (line.take 3) := by
  obtain ⟨r, hr, hrt, _⟩ := newRecord_supported trimSpace line htag
  refine ⟨r, hr, hrt, fun encode obj hpres henc => ?_⟩
  rw [hpres r obj henc, hrt]

/-- Witness for C8: a header line. -/
theorem newRecord_recordType_witness :
    ∃ r, newRecord id (lit "HDRPB012345678") = some (some r, none) ∧
      r.RecordType = (lit "HDRPB012345678").take 3 ∧
      ∀ (encode : Record → Except Error Object) (obj : Object),
        (∀ r0 o, encode r0 = .ok o → o.recordType = .ok r0.RecordType) →
        encode r = .ok obj → obj.recordType = .ok ((lit "HDRPB012345678").take 3) :=
  newRecord_recordType id (lit "HDRPB012345678") (by decide)


/-! ## Theorems: the graph builder -/

theorem mapSet_same {V : Type} (m : StrMap V) (k : GoString) (v : V) : mapSet m k v k = some v := by
  simp [mapSet]

theorem mapSet_mapSet {V : Type} (m : StrMap V) (k : GoString) (v w : V) :
    mapSet (mapSet m k v) k w = mapSet m k w := by
  funext j
  unfold mapSet
  split_ifs <;> rfl

theorem step_HDR (s : BuilderState) (c : Cid) :
    step s (lit "HDR") c
      = some { s with cwr := { s.cwr with Records := mapSet s.cwr.Records (lit "HDR") c } } := by
  unfold step
  rw [if_pos (Or.inl rfl)]

theorem step_TRL (s : BuilderState) (c : Cid) :
    step s (lit "TRL") c
      = some { s with cwr := { s.cwr with Records := mapSet s.cwr.Records (lit "TRL") c } } := by
  unfold step
  rw [if_pos (Or.inr rfl)]

theorem step_GRH (s : BuilderState) (c : Cid) :
    step s (lit "GRH") c
      = some { s with
          group := { Record := some c, Transactions := some s.heap.length }
          heap := s.heap ++ [mapEmpty] } := by
  unfold step
  rw [if_neg (by decide), if_pos rfl]

theorem step_GRT (s : BuilderState) (c : Cid) :
    step s (lit "GRT") c
      = andThen (flush s) fun s =>
          some { s with cwr := { s.cwr with Groups := s.cwr.Groups ++ [s.group] } } := by
  unfold step
  rw [if_neg (by decide), if_neg (by decide), if_pos rfl]

theorem step_NWR (s : BuilderState) (c : Cid) :
    step s (lit "NWR") c
      = andThen (if (s.nwr.MainRecord (lit "NWR")).isSome then flush s else some s) fun s =>
          some { s with nwr := { s.nwr with MainRecord := mapSet s.nwr.MainRecord (lit "NWR") c } } := by
  unfold step
  rw [if_neg (by decide), if_neg (by decide), if_neg (by decide), if_pos (Or.inl rfl)]

theorem step_REV (s : BuilderState) (c : Cid) :
    step s (lit "REV") c
      = andThen (if (s.nwr.MainRecord (lit "REV")).isSome then flush s else some s) fun s =>
          some { s with nwr := { s.nwr with MainRecord := mapSet s.nwr.MainRecord (lit "REV") c } } := by
  unfold step
  rw [if_neg (by decide), if_neg (by decide), if_neg (by decide), if_pos (Or.inr rfl)]

theorem step_SPU (s : BuilderState) (c : Cid) :
    step s (lit "SPU") c = some { s with spus := s.spus ++ [c] } := by
  unfold step
  rw [if_neg (by decide), if_neg (by decide), if_neg (by decide), if_neg (by decide), if_pos rfl]

theorem runObjs_append (xs ys : List Object) (s : BuilderState) :
    runObjs (xs ++ ys) s
      = match runObjs xs s with
        | .ok s1 => runObjs ys s1
        | .error err => .error err
        | .panic => .panic := by
  induction xs generalizing s with
  | nil => rfl
  | cons x xs ih =>
    simp only [List.cons_append, runObjs]
    cases visitObj s x with
    | ok s1 => exact ih s1
    | error err => rfl
    | panic => rfl

theorem runObjs_SPU (cs : List Cid) (s : BuilderState) :
    runObjs (cs.map (tagged (lit "SPU"))) s = .ok { s with spus := s.spus ++ cs } := by
  induction cs generalizing s with
  | nil => simp [runObjs]
  | cons c cs ih =>
    simp only [List.map_cons, runObjs, visitObj, tagged, step_SPU]
    rw [ih]
    simp

theorem loopOver_dense (pre post : List Object) (s : BuilderState) :
    loopOver (denseMap (pre ++ post)) (List.range' pre.length post.length) s = runObjs post s := by
  induction post generalizing pre s with
  | nil => rfl
  | cons x post ih =>
    have hx : (denseMap (pre ++ x :: post)).lookup pre.length = some x := by
      have h1 : (pre ++ x :: post)[pre.length]? = some x := by
        rw [List.getElem?_append_right (Nat.le_refl _)]
        simp
      simp [denseMap, IntMap.lookup, h1]
    simp only [List.length_cons, List.range'_succ, loopOver, visit, hx, runObjs]
    cases hv : visitObj s x with
    | ok s1 =>
      have := ih (pre ++ [x]) s1
      simp only [List.append_assoc, List.singleton_append, List.length_append, List.length_singleton] at this
      simpa using this
    | error err => rfl
    | panic => rfl

theorem graphBuilder_dense (objs : List Object) :
    graphBuilder (denseMap objs) = runObjs objs BuilderState.init := by
  have := loopOver_dense [] objs BuilderState.init
  simpa [graphBuilder, List.range_eq_range', denseMap] using this

/-! ### Claims C1, C9 and C10 -/

/-- C1: for the object sequence HDR h, GRH g, NWR w, SPU s1..sn, GRT, TRL t (any
n, in index order), the graph builder ends without error or panic, and the File
has Records exactly {HDR: h, TRL: t} and exactly one Group, with header g,
whose transaction map is exactly {NWR: [T]} with T the Transaction of main
record {NWR: w} and detail records {SPU: [s1, ..., sn]}. -/
theorem graphBuilder_scenario (h g w x t : Cid) (ss : List Cid) :
    ∃ s, graphBuilder (denseMap ([tagged (lit "HDR") h, tagged (lit "GRH") g, tagged (lit "NWR") w]
            ++ ss.map (tagged (lit "SPU")) ++ [tagged (lit "GRT") x, tagged (lit "TRL") t])) = .ok s ∧
      fileOf s =
        { Records := mapSet (mapSet mapEmpty (lit "HDR") h) (lit "TRL") t
          Groups := [{ Record := some g
                       Transactions := some (mapSet mapEmpty (lit "NWR")
                         [{ MainRecord := mapSet mapEmpty (lit "NWR") w
                            DetailRecords := mapSet mapEmpty (lit "SPU") ss }]) }] } := by
  rw [graphBuilder_dense, runObjs_append, runObjs_append]
  simp only [runObjs, visitObj, tagged, step_HDR, step_GRH, step_NWR, step_GRT, step_TRL, runObjs_SPU]
  refine ⟨_, rfl, ?_⟩
  rfl


/-- C9: for the object sequence GRH g, NWR a, SPU d1..dj, NWR b, SPU e1..ek, GRT
the File has one Group, with header g, holding under key NWR exactly two
Transactions in order: main record a with detail list d1..dj, then main record
b with detail list e1..ek. -/
theorem graphBuilder_two_registrations (g a b x : Cid) (ds es : List Cid) :
    ∃ s, graphBuilder (denseMap ([tagged (lit "GRH") g, tagged (lit "NWR") a]
            ++ ds.map (tagged (lit "SPU")) ++ [tagged (lit "NWR") b]
            ++ es.map (tagged (lit "SPU")) ++ [tagged (lit "GRT") x])) = .ok s ∧
      fileOf s =
        { Records := mapEmpty
          Groups := [{ Record := some g
                       Transactions := some (mapSet mapEmpty (lit "NWR")
                         [{ MainRecord := mapSet mapEmpty (lit "NWR") a
                            DetailRecords := mapSet mapEmpty (lit "SPU") ds },
                          { MainRecord := mapSet mapEmpty (lit "NWR") b
                            DetailRecords := mapSet mapEmpty (lit "SPU") es }]) }] } := by
  rw [graphBuilder_dense, runObjs_append, runObjs_append, runObjs_append, runObjs_append]
  simp only [runObjs, visitObj, tagged, step_GRH, step_NWR, step_GRT, runObjs_SPU]
  refine ⟨_, rfl, ?_⟩
  refine Eq.trans (b :=
    { Records := mapEmpty
      Groups := [{ Record := some g
                   Transactions := some (mapSet (mapSet mapEmpty (lit "NWR")
                     [{ MainRecord := mapSet mapEmpty (lit "NWR") a
                        DetailRecords := mapSet mapEmpty (lit "SPU") ds }]) (lit "NWR")
                     [{ MainRecord := mapSet mapEmpty (lit "NWR") a
                        DetailRecords := mapSet mapEmpty (lit "SPU") ds },
                      { MainRecord := mapSet mapEmpty (lit "NWR") b
                        DetailRecords := mapSet mapEmpty (lit "SPU") es }]) }] }) rfl ?_
  rw [mapSet_mapSet]

/-- C10: in a state with an open Group (its transaction map `m` is allocated),
an empty main-record slot and an empty pending detail accumulator, the
group-trailer step succeeds and appends one Transaction `t` to the Group under
key NWR; `t` has an empty main-record slot and the empty detail list under
SPU, and the Group appended to the File shows it. -/
theorem step_GRT_empty (s : BuilderState) (c : Cid) (a : Nat) (m : StrMap (List Transaction))
    (hopen : s.group.Transactions = some a) (hheap : s.heap[a]? = some m)
    (hmain : s.nwr.MainRecord = mapEmpty) (hspus : s.spus = []) :
    ∃ s1 t, step s (lit "GRT") c = some s1 ∧
      s1.heap[a]? = some (mapSet m (lit "NWR") ((m (lit "NWR")).getD [] ++ [t])) ∧
      t.MainRecord = mapEmpty ∧ t.DetailRecords (lit "SPU") = some [] ∧
      s1.cwr.Groups = s.cwr.Groups ++ [s.group] ∧
      (fileOf s1).Groups.getLast? = some
        { Record := s.group.Record
          Transactions := some (mapSet m (lit "NWR") ((m (lit "NWR")).getD [] ++ [t])) } := by
  have hlt : a < s.heap.length := by
    rcases Nat.lt_or_ge a s.heap.length with h | h
    · exact h
    · rw [List.getElem?_eq_none h] at hheap
      cases hheap
  have hfl : flush s = some { s with
        spus := []
        heap := s.heap.set a (mapSet m (lit "NWR") ((m (lit "NWR")).getD [] ++
          [{ MainRecord := mapEmpty, DetailRecords := mapSet s.nwr.DetailRecords (lit "SPU") [] }]))
        nwr := { MainRecord := mapEmpty, DetailRecords := mapEmpty } } := by
    unfold flush
    simp only [hopen, hheap, hmain, hspus]
  refine ⟨{ s with
        spus := []
        heap := s.heap.set a (mapSet m (lit "NWR") ((m (lit "NWR")).getD [] ++
          [{ MainRecord := mapEmpty, DetailRecords := mapSet s.nwr.DetailRecords (lit "SPU") [] }]))
        nwr := { MainRecord := mapEmpty, DetailRecords := mapEmpty }
        cwr := { s.cwr with Groups := s.cwr.Groups ++ [s.group] } },
    { MainRecord := mapEmpty, DetailRecords := mapSet s.nwr.DetailRecords (lit "SPU") [] },
    ?_, ?_, rfl, by simp [mapSet], rfl, ?_⟩
  · rw [step_GRT, hfl]
    rfl
  · simp [hlt]
  · simp [fileOf, groupValue, hopen, hlt]

/-- Witness for C10: the sequence GRH, GRT. The single object GRH (identifier 1)
puts the builder in a state with an open Group, an empty main-record slot and
no pending detail, and the group trailer (identifier 2) then appends the empty
Transaction. -/
theorem step_GRT_empty_witness :
    step BuilderState.init (lit "GRH") 1 = some
        { cwr := { Records := mapEmpty, Groups := [] }
          nwr := { MainRecord := mapEmpty, DetailRecords := mapEmpty }
          spus := []
          group := { Record := some 1, Transactions := some 0 }
          heap := [mapEmpty] } ∧
    ∃ s1 t, step
        { cwr := { Records := mapEmpty, Groups := [] }
          nwr := { MainRecord := mapEmpty, DetailRecords := mapEmpty }
          spus := []
          group := { Record := some 1, Transactions := some 0 }
          heap := [mapEmpty] } (lit "GRT") 2 = some s1 ∧
      s1.heap[0]? = some (mapSet mapEmpty (lit "NWR") ([] ++ [t])) ∧
      t.MainRecord = mapEmpty ∧ t.DetailRecords (lit "SPU") = some [] ∧
      s1.cwr.Groups = [] ++ [{ Record := some 1, Transactions := some 0 }] ∧
      (fileOf s1).Groups.getLast? = some
        { Record := some 1
          Transactions := some (mapSet mapEmpty (lit "NWR") ([] ++ [t])) } :=
  ⟨step_GRH _ 1, step_GRT_empty _ 2 0 mapEmpty rfl rfl rfl rfl⟩

/-! ## Theorems: dispatcher and collector -/

/-- C2, the code at the failing input: 17 lines `HDR`, each with a recognised
tag and each yielding a record, and a store whose `Put` always fails. Each of
the 16 workers returns after the one job it receives, so the send of the 17th
job finds no running worker: the dispatcher emits 16 jobs, with indices
0, ..., 15, and not one job per line with a recognised tag. When `Put` succeeds
the same lines give 17 jobs with indices 0, ..., 16. -/
theorem dispatcher_emits_fewer_jobs :
    ((List.replicate 17 (lit "HDR")).filter fun line =>
      decide (line.take 3 ∈ supportedTags)).length = 17 ∧
    (List.replicate 17 (lit "HDR")).filterMap
        (fun line => (newRecord id line).bind fun p => p.1)
      = List.replicate 17 { RecordType := lit "HDR" } ∧
    (∀ closedFirst, ∃ d,
      dispatcher id (fun r => .ok (tagged r.RecordType 1)) (fun _ => some "store unavailable")
        closedFirst (List.replicate 17 (lit "HDR")) none = some d ∧
      d.jobs.map (fun job => job.record) = List.replicate 16 { RecordType := lit "HDR" } ∧
      d.jobs.map (fun job => job.index) = List.range 16 ∧
      d.jobs.length = 16 ∧ d.closed = false) ∧
    (∀ closedFirst, ∃ d,
      dispatcher id (fun r => .ok (tagged r.RecordType 1)) (fun _ => none)
        closedFirst (List.replicate 17 (lit "HDR")) none = some d ∧
      d.jobs.map (fun job => job.record) = List.replicate 17 { RecordType := lit "HDR" } ∧
      d.jobs.map (fun job => job.index) = List.range 17 ∧
      d.jobs.length = 17 ∧ d.closed = true) :=
  ⟨rfl, rfl, fun _ => ⟨_, rfl, rfl, rfl, rfl, rfl⟩, fun _ => ⟨_, rfl, rfl, rfl, rfl, rfl⟩⟩

theorem collectStep_comm (acc : Option Error × IntMap) (x y : objectResult)
    (hx : x.err = none) (hy : y.err = none) (hne : x.index ≠ y.index) :
    collectStep (collectStep acc x) y = collectStep (collectStep acc y) x := by
  unfold collectStep
  simp only [hx, hy]
  unfold IntMap.set
  simp only [Prod.mk.injEq, IntMap.mk.injEq, true_and]
  constructor
  · funext j
    by_cases h1 : j = y.index
    · subst h1
      simp [Ne.symm hne]
    · by_cases h2 : j = x.index
      · subst h2
        simp [h1]
      · simp [h1, h2]
  · simp only [hne, Ne.symm hne, if_false]
    split_ifs <;> rfl

theorem collector_perm (rs rs1 : List objectResult) (hperm : rs.Perm rs1)
    (hok : ∀ r ∈ rs, r.err = none) (hnodup : (rs.map fun r => r.index).Nodup) :
    collector rs1 = collector rs := by
  unfold collector
  symm
  apply hperm.foldl_eq'
  intro x hx y hy z
  by_cases h : x.index = y.index
  · have := List.inj_on_of_nodup_map hnodup hx hy h
    rw [this]
  · exact collectStep_comm z x y (hok x hx) (hok y hy) h

theorem foldl_collect_other (rs : List objectResult) (acc : Option Error × IntMap) (i : Nat)
    (hi : i ∉ rs.map fun r => r.index) :
    (rs.foldl collectStep acc).2.entries i = acc.2.entries i := by
  induction rs generalizing acc with
  | nil => rfl
  | cons x xs ih =>
    simp only [List.map_cons, List.mem_cons, not_or] at hi
    rw [List.foldl_cons, ih _ hi.2]
    unfold collectStep
    cases x.err with
    | none => simp [IntMap.set, hi.1]
    | some e => rfl

theorem foldl_collect_entries (rs : List objectResult) (acc : Option Error × IntMap)
    (hok : ∀ r ∈ rs, r.err = none) (hnodup : (rs.map fun r => r.index).Nodup) :
    ∀ r ∈ rs, (rs.foldl collectStep acc).2.entries r.index = some r.obj := by
  induction rs generalizing acc with
  | nil => intro r hr; cases hr
  | cons x xs ih =>
    simp only [List.map_cons, List.nodup_cons] at hnodup
    intro r hr
    rw [List.foldl_cons]
    rcases List.mem_cons.1 hr with h | h
    · subst h
      rw [foldl_collect_other xs _ _ hnodup.1]
      simp [collectStep, hok r (List.mem_cons_self _ _), IntMap.set]
    · exact ih _ (fun r1 h1 => hok r1 (List.mem_cons_of_mem _ h1)) hnodup.2 r h

theorem foldl_collect_len (rs : List objectResult) (acc : Option Error × IntMap)
    (hok : ∀ r ∈ rs, r.err = none) (hnodup : (rs.map fun r => r.index).Nodup)
    (hfresh : ∀ r ∈ rs, acc.2.entries r.index = none) :
    (rs.foldl collectStep acc).2.len = acc.2.len + rs.length := by
  induction rs generalizing acc with
  | nil => rfl
  | cons x xs ih =>
    simp only [List.map_cons, List.nodup_cons, List.mem_map, not_exists, not_and] at hnodup
    have hx := hok x (List.mem_cons_self _ _)
    have hstep : collectStep acc x = (acc.1, acc.2.set x.index x.obj) := by
      simp [collectStep, hx]
    rw [List.foldl_cons, hstep, ih _ (fun r1 h1 => hok r1 (List.mem_cons_of_mem _ h1)) hnodup.2]
    · simp [IntMap.set, hfresh x (List.mem_cons_self _ _)]
      omega
    · intro r hr
      have hne : r.index ≠ x.index := fun h => hnodup.1 r hr h
      simp [IntMap.set, hne, hfresh r (List.mem_cons_of_mem _ hr)]

theorem length_of_cover (l : List Nat) (n : Nat) (hnodup : l.Nodup)
    (hcover : ∀ i, i < n ↔ i ∈ l) : l.length = n := by
  have hperm : l.Perm (List.range n) :=
    (List.perm_ext_iff_of_nodup hnodup (List.nodup_range n)).2 fun i => by
      rw [List.mem_range]
      exact (hcover i).symm
  rw [hperm.length_eq, List.length_range]

/-- C3: for error-free results whose indices are pairwise distinct and cover
`0, ..., n-1`, every arrival order `rs1` (a permutation of `rs`) makes the
collector build the same map, namely the one with `n` keys that holds at each
result's index that result's object; hence the graph builder gives the same
outcome, and ConvertCWR returns the same root identifier. -/
theorem ConvertCWR_arrival_order (encode : File → Except Error Object)
    (put : Object → Option Error) (rs rs1 : List objectResult) (n : Nat)
    (hperm : rs.Perm rs1) (hok : ∀ r ∈ rs, r.err = none)
    (hnodup : (rs.map fun r => r.index).Nodup)
    (hcover : ∀ i, i < n ↔ i ∈ rs.map fun r => r.index) :
    collector rs1 = collector rs ∧
    (collector rs1).2.len = n ∧
    (∀ r ∈ rs, (collector rs1).2.entries r.index = some r.obj) ∧
    graphBuilder (collector rs1).2 = graphBuilder (collector rs).2 ∧
    ConvertCWR encode put rs1 = ConvertCWR encode put rs := by
  have h := collector_perm rs rs1 hperm hok hnodup
  refine ⟨h, ?_, ?_, by rw [h], ?_⟩
  · rw [h]
    unfold collector
    rw [foldl_collect_len rs _ hok hnodup (fun _ _ => rfl)]
    have := length_of_cover _ n hnodup hcover
    simp only [List.length_map] at this
    simp [IntMap.empty, this]
  · rw [h]
    exact foldl_collect_entries rs _ hok hnodup
  · unfold ConvertCWR
    rw [h]

/-- Witness for C3: a header and a trailer object arriving in reverse order. -/
theorem ConvertCWR_arrival_order_witness :
    collector [⟨some (tagged (lit "TRL") 8), 1, none⟩, ⟨some (tagged (lit "HDR") 7), 0, none⟩]
      = collector [⟨some (tagged (lit "HDR") 7), 0, none⟩, ⟨some (tagged (lit "TRL") 8), 1, none⟩] ∧
    ConvertCWR (fun _ => .ok (tagged [] 9)) (fun _ => none)
        [⟨some (tagged (lit "TRL") 8), 1, none⟩, ⟨some (tagged (lit "HDR") 7), 0, none⟩]
      = ConvertCWR (fun _ => .ok (tagged [] 9)) (fun _ => none)
        [⟨some (tagged (lit "HDR") 7), 0, none⟩, ⟨some (tagged (lit "TRL") 8), 1, none⟩] :=
  have h := ConvertCWR_arrival_order (fun _ => .ok (tagged [] 9)) (fun _ => none)
    [⟨some (tagged (lit "HDR") 7), 0, none⟩, ⟨some (tagged (lit "TRL") 8), 1, none⟩]
    [⟨some (tagged (lit "TRL") 8), 1, none⟩, ⟨some (tagged (lit "HDR") 7), 0, none⟩] 2
    (List.Perm.swap _ _ _) (by simp) (by decide)
    (by
      intro i
      simp
      omega)
  ⟨h.1, h.2.2.2.2⟩

theorem collector_error (rs : List objectResult) (acc : Option Error × IntMap) :
    (rs.foldl collectStep acc).1 = ((errorsOf rs).getLast?).or acc.1 := by
  induction rs generalizing acc with
  | nil => simp [errorsOf]
  | cons r rs ih =>
    rw [List.foldl_cons, ih]
    cases hr : r.err with
    | none => simp [collectStep, errorsOf, hr]
    | some e =>
      simp only [collectStep, errorsOf, hr, List.filterMap_cons]
      cases hl : List.filterMap (fun v => v.err) rs with
      | nil => simp
      | cons b l =>
        rw [List.getLast?_cons_cons, List.getLast?_eq_getLast _ (List.cons_ne_nil b l)]
        rfl

/-- C4, amended: when some result carries an error, ConvertCWR returns the last
error of the arrival order (line 137 overwrites `err` at every error result). -/
theorem ConvertCWR_last_error (encode : File → Except Error Object)
    (put : Object → Option Error) (rs : List objectResult)
    (herr : ∃ r ∈ rs, r.err ≠ none) :
    ∃ e, (errorsOf rs).getLast? = some e ∧ ConvertCWR encode put rs = .error e := by
  have hne : errorsOf rs ≠ [] := by
    obtain ⟨r, hr, he⟩ := herr
    cases hre : r.err with
    | none => exact absurd hre he
    | some e =>
      intro h0
      have : e ∈ errorsOf rs := by
        unfold errorsOf
        rw [List.mem_filterMap]
        exact ⟨r, hr, hre⟩
      rw [h0] at this
      cases this
  have h1 := collector_error rs (none, IntMap.empty)
  cases hl : (errorsOf rs).getLast? with
  | none =>
    rw [List.getLast?_eq_none_iff] at hl
    exact absurd hl hne
  | some e =>
    refine ⟨e, rfl, ?_⟩
    rw [hl] at h1
    unfold ConvertCWR
    have h2 : (collector rs).1 = some e := by simpa [collector] using h1
    cases hc : collector rs with
    | mk err m =>
      rw [hc] at h2
      simp only at h2
      subst h2
      rfl

/-- Witness for C4, amended: two error results. -/
theorem ConvertCWR_last_error_witness :
    ∃ e, (errorsOf [⟨none, 0, some "encode failed"⟩, ⟨none, 0, some "put failed"⟩]).getLast? = some e ∧
      ConvertCWR (fun _ => .error "unused") (fun _ => none)
        [⟨none, 0, some "encode failed"⟩, ⟨none, 0, some "put failed"⟩] = .error e :=
  ConvertCWR_last_error _ _ _ ⟨⟨none, 0, some "encode failed"⟩, by simp, by simp⟩

/-- Counterexample to C4: with two error results the first error observed is
"encode failed", and ConvertCWR returns the second, "put failed". -/
theorem ConvertCWR_not_first_error :
    (errorsOf [⟨none, 0, some "encode failed"⟩, ⟨none, 0, some "put failed"⟩]).head?
        = some "encode failed" ∧
    ConvertCWR (fun _ => .error "unused") (fun _ => none)
        [⟨none, 0, some "encode failed"⟩, ⟨none, 0, some "put failed"⟩] = .error "put failed" ∧
    "put failed" ≠ "encode failed" := by
  refine ⟨rfl, rfl, by decide⟩


/-! ## Theorems: invariants of the graph builder -/

theorem andThen_eq_some {α β : Type} (x : Option α) (f : α → Option β) (b : β)
    (h : andThen x f = some b) : ∃ a, x = some a ∧ f a = some b := by
  cases x with
  | none => cases h
  | some a => exact ⟨a, rfl, h⟩

theorem flush_spec (s s1 : BuilderState) (h : flush s = some s1) :
    ∃ a m, s.group.Transactions = some a ∧ s.heap[a]? = some m ∧
      s1 = { s with
        spus := []
        heap := s.heap.set a (mapSet m (lit "NWR") ((m (lit "NWR")).getD [] ++
          [{ s.nwr with DetailRecords := mapSet s.nwr.DetailRecords (lit "SPU") s.spus }]))
        nwr := { MainRecord := mapEmpty, DetailRecords := mapEmpty } } := by
  unfold flush at h
  cases ha : s.group.Transactions with
  | none => simp [ha] at h
  | some a =>
    cases hm : s.heap[a]? with
    | none => simp [ha, hm] at h
    | some m =>
      simp only [ha, hm, Option.some.injEq] at h
      exact ⟨a, m, rfl, hm, h.symm⟩

theorem step_spec (s s1 : BuilderState) (rt : GoString) (c : Cid) (h : step s rt c = some s1) :
    ((rt = lit "HDR" ∨ rt = lit "TRL") ∧
        s1 = { s with cwr := { s.cwr with Records := mapSet s.cwr.Records rt c } }) ∨
    (rt = lit "GRH" ∧
        s1 = { s with
          group := { Record := some c, Transactions := some s.heap.length }
          heap := s.heap ++ [mapEmpty] }) ∨
    (rt = lit "GRT" ∧ ∃ s0, flush s = some s0 ∧
        s1 = { s0 with cwr := { s0.cwr with Groups := s0.cwr.Groups ++ [s0.group] } }) ∨
    ((rt = lit "NWR" ∨ rt = lit "REV") ∧
        ∃ s0, (if (s.nwr.MainRecord rt).isSome then flush s else some s) = some s0 ∧
          s1 = { s0 with nwr := { s0.nwr with MainRecord := mapSet s0.nwr.MainRecord rt c } }) ∨
    (rt = lit "SPU" ∧ s1 = { s with spus := s.spus ++ [c] }) ∨
    (rt ∉ supportedTags ∧ s1 = s) := by
  unfold step at h
  by_cases h1 : rt = lit "HDR" ∨ rt = lit "TRL"
  · rw [if_pos h1] at h
    exact Or.inl ⟨h1, (Option.some.inj h).symm⟩
  rw [if_neg h1] at h
  by_cases h2 : rt = lit "GRH"
  · rw [if_pos h2] at h
    exact Or.inr (Or.inl ⟨h2, (Option.some.inj h).symm⟩)
  rw [if_neg h2] at h
  by_cases h3 : rt = lit "GRT"
  · rw [if_pos h3] at h
    obtain ⟨s0, hs0, hf⟩ := andThen_eq_some _ _ _ h
    exact Or.inr (Or.inr (Or.inl ⟨h3, s0, hs0, (Option.some.inj hf).symm⟩))
  rw [if_neg h3] at h
  by_cases h4 : rt = lit "NWR" ∨ rt = lit "REV"
  · rw [if_pos h4] at h
    obtain ⟨s0, hs0, hf⟩ := andThen_eq_some _ _ _ h
    exact Or.inr (Or.inr (Or.inr (Or.inl ⟨h4, s0, hs0, (Option.some.inj hf).symm⟩)))
  rw [if_neg h4] at h
  by_cases h5 : rt = lit "SPU"
  · rw [if_pos h5] at h
    exact Or.inr (Or.inr (Or.inr (Or.inr (Or.inl ⟨h5, (Option.some.inj h).symm⟩))))
  rw [if_neg h5] at h
  refine Or.inr (Or.inr (Or.inr (Or.inr (Or.inr ⟨?_, (Option.some.inj h).symm⟩))))
  simp only [supportedTags, List.mem_cons, List.mem_singleton, List.not_mem_nil, or_false]
  tauto

theorem visitObj_ok (s s1 : BuilderState) (obj : Object) (h : visitObj s obj = .ok s1) :
    ∃ rt, obj.recordType = .ok rt ∧ step s rt obj.cid = some s1 := by
  unfold visitObj at h
  cases hrt : obj.recordType with
  | error e => simp [hrt] at h
  | ok rt =>
    simp only [hrt] at h
    cases hst : step s rt obj.cid with
    | none => simp [hst] at h
    | some s2 =>
      simp only [hst, Outcome.ok.injEq] at h
      exact ⟨rt, rfl, h ▸ hst⟩

theorem loopOver_invariant (P : BuilderState → Prop)
    (hstep : ∀ s s1 rt c, P s → step s rt c = some s1 → P s1)
    (recordObjs : IntMap) (idx : List Nat) (s s1 : BuilderState)
    (hs : P s) (h : loopOver recordObjs idx s = .ok s1) : P s1 := by
  induction idx generalizing s with
  | nil =>
    simp only [loopOver, Outcome.ok.injEq] at h
    rw [← h]
    exact hs
  | cons i rest ih =>
    simp only [loopOver] at h
    cases hv : visit recordObjs s i with
    | ok s2 =>
      simp only [hv] at h
      unfold visit at hv
      cases hl : recordObjs.lookup i with
      | none => simp [hl] at hv
      | some obj =>
        simp only [hl] at hv
        obtain ⟨rt, _, hst⟩ := visitObj_ok s s2 obj hv
        exact ih s2 (hstep s s2 rt obj.cid hs hst) h
    | error e => simp [hv] at h
    | panic => simp [hv] at h


theorem flush_cwr (s s1 : BuilderState) (h : flush s = some s1) :
    s1.cwr = s.cwr ∧ s1.group = s.group := by
  obtain ⟨a, m, _, _, rfl⟩ := flush_spec s s1 h
  exact ⟨rfl, rfl⟩

theorem step_records (s s1 : BuilderState) (rt : GoString) (c : Cid)
    (h : step s rt c = some s1) :
    s1.cwr.Records
      = if rt = lit "HDR" ∨ rt = lit "TRL" then mapSet s.cwr.Records rt c else s.cwr.Records := by
  rcases step_spec s s1 rt c h with ⟨h1, rfl⟩ | ⟨h1, rfl⟩ | ⟨h1, s0, hs0, rfl⟩ | ⟨h1, s0, hs0, rfl⟩ |
    ⟨h1, rfl⟩ | ⟨h1, rfl⟩
  · rw [if_pos h1]
  · rw [if_neg (by rw [h1]; decide)]
  · rw [if_neg (by rw [h1]; decide)]
    show s0.cwr.Records = s.cwr.Records
    rw [(flush_cwr s s0 hs0).1]
  · have hneg : ¬ (rt = lit "HDR" ∨ rt = lit "TRL") := by
      rcases h1 with h1 | h1 <;> rw [h1] <;> decide
    rw [if_neg hneg]
    by_cases hm : (s.nwr.MainRecord rt).isSome
    · rw [if_pos hm] at hs0
      show s0.cwr.Records = s.cwr.Records
      rw [(flush_cwr s s0 hs0).1]
    · rw [if_neg hm] at hs0
      cases hs0
      rfl
  · rw [if_neg (by rw [h1]; decide)]
  · have hneg : ¬ (rt = lit "HDR" ∨ rt = lit "TRL") := by
      simp only [supportedTags, List.mem_cons, List.mem_singleton, List.not_mem_nil, or_false,
        not_or] at h1
      exact fun h => h.elim h1.1 h1.2.2.2.1
    rw [if_neg hneg]

theorem lastCid_cons (tag : GoString) (obj : Object) (rest : List Object) :
    lastCid tag (obj :: rest)
      = (lastCid tag rest).or (if hasTag tag obj then some obj.cid else none) := by
  unfold lastCid
  rw [List.reverse_cons, List.find?_append]
  cases List.find? (hasTag tag) rest.reverse with
  | some o => rfl
  | none =>
    by_cases ht : hasTag tag obj = true
    · simp [List.find?, ht]
    · simp [List.find?, ht]

theorem runObjs_records (objs : List Object) (s0 s : BuilderState)
    (h : runObjs objs s0 = .ok s) (k : GoString) :
    s.cwr.Records k
      = if k = lit "HDR" ∨ k = lit "TRL" then (lastCid k objs).or (s0.cwr.Records k)
        else s0.cwr.Records k := by
  induction objs generalizing s0 with
  | nil =>
    simp only [runObjs, Outcome.ok.injEq] at h
    subst h
    simp [lastCid]
  | cons obj rest ih =>
    simp only [runObjs] at h
    cases hv : visitObj s0 obj with
    | error e => simp [hv] at h
    | panic => simp [hv] at h
    | ok s1 =>
      simp only [hv] at h
      obtain ⟨rt, hrt, hst⟩ := visitObj_ok s0 s1 obj hv
      have hrec := step_records s0 s1 rt obj.cid hst
      rw [ih s1 h, hrec, lastCid_cons]
      have htag : hasTag k obj = decide (rt = k) := by simp [hasTag, hrt]
      by_cases hk : k = lit "HDR" ∨ k = lit "TRL"
      · simp only [if_pos hk, htag]
        by_cases hrk : rt = k
        · subst hrk
          simp only [if_pos hk, mapSet, if_true, decide_True]
          cases lastCid rt rest <;> rfl
        · have hkr : ¬ k = rt := fun h => hrk h.symm
          simp only [hrk, decide_False, Bool.false_eq_true, if_false]
          by_cases hr : rt = lit "HDR" ∨ rt = lit "TRL"
          · simp only [if_pos hr, mapSet, if_neg hkr]
            cases lastCid k rest <;> rfl
          · simp only [if_neg hr]
            cases lastCid k rest <;> rfl
      · simp only [if_neg hk]
        by_cases hr : rt = lit "HDR" ∨ rt = lit "TRL"
        · have hkr : ¬ k = rt := by
            intro h
            rw [h] at hk
            exact hk hr
          simp only [if_pos hr, mapSet, if_neg hkr]
        · simp only [if_neg hr]


/-- C19: when the graph builder has run over the object sequence `objs`, the
File's HDR slot holds the identifier of the last HDR object and its TRL slot
that of the last TRL object (a later one overwrites an earlier one); a slot is
absent exactly when no object of the sequence has that tag; and the Records
map has no key other than HDR and TRL. -/
theorem records_last (objs : List Object) (s : BuilderState)
    (h : graphBuilder (denseMap objs) = .ok s) :
    (fileOf s).Records (lit "HDR") = lastCid (lit "HDR") objs ∧
    (fileOf s).Records (lit "TRL") = lastCid (lit "TRL") objs ∧
    ((fileOf s).Records (lit "HDR") = none ↔ ∀ obj ∈ objs, hasTag (lit "HDR") obj = false) ∧
    ((fileOf s).Records (lit "TRL") = none ↔ ∀ obj ∈ objs, hasTag (lit "TRL") obj = false) ∧
    ∀ k, k ≠ lit "HDR" → k ≠ lit "TRL" → (fileOf s).Records k = none := by
  rw [graphBuilder_dense] at h
  have hrec := runObjs_records objs BuilderState.init s h
  have hnone : ∀ tag, lastCid tag objs = none ↔ ∀ obj ∈ objs, hasTag tag obj = false := by
    intro tag
    simp [lastCid]
  have h1 : (fileOf s).Records (lit "HDR") = lastCid (lit "HDR") objs := by
    show s.cwr.Records (lit "HDR") = _
    rw [hrec, if_pos (Or.inl rfl)]
    cases lastCid (lit "HDR") objs <;> rfl
  have h2 : (fileOf s).Records (lit "TRL") = lastCid (lit "TRL") objs := by
    show s.cwr.Records (lit "TRL") = _
    rw [hrec, if_pos (Or.inr rfl)]
    cases lastCid (lit "TRL") objs <;> rfl
  refine ⟨h1, h2, ?_, ?_, ?_⟩
  · rw [h1]
    exact hnone _
  · rw [h2]
    exact hnone _
  · intro k hk1 hk2
    show s.cwr.Records k = none
    rw [hrec, if_neg (fun h => h.elim hk1 hk2)]
    rfl

/-- Witness for C19: the sequence HDR 1, GRH 2, HDR 3; the second header
overwrites the first and there is no trailer. -/
theorem records_last_witness :
    ∃ s, graphBuilder (denseMap [tagged (lit "HDR") 1, tagged (lit "GRH") 2, tagged (lit "HDR") 3])
        = .ok s ∧
      (fileOf s).Records (lit "HDR") = some 3 ∧ (fileOf s).Records (lit "TRL") = none :=
  ⟨_, rfl,
    (records_last [tagged (lit "HDR") 1, tagged (lit "GRH") 2, tagged (lit "HDR") 3] _ rfl).1,
    (records_last [tagged (lit "HDR") 1, tagged (lit "GRH") 2, tagged (lit "HDR") 3] _ rfl).2.1⟩

theorem heap_keys_step (s s1 : BuilderState) (rt : GoString) (c : Cid)
    (hs : ∀ m ∈ s.heap, ∀ k, k ≠ lit "NWR" → m k = none) (h : step s rt c = some s1) :
    ∀ m ∈ s1.heap, ∀ k, k ≠ lit "NWR" → m k = none := by
  have hflush : ∀ s0, flush s = some s0 → ∀ m ∈ s0.heap, ∀ k, k ≠ lit "NWR" → m k = none := by
    intro s0 h0 m hm k hk
    obtain ⟨a, m0, _, hm0, rfl⟩ := flush_spec s s0 h0
    rcases List.mem_or_eq_of_mem_set hm with hmem | heq
    · exact hs m hmem k hk
    · rw [heq]
      simp only [mapSet, if_neg hk]
      exact hs m0 (List.getElem?_mem hm0) k hk
  rcases step_spec s s1 rt c h with ⟨_, rfl⟩ | ⟨_, rfl⟩ | ⟨_, s0, hs0, rfl⟩ | ⟨_, s0, hs0, rfl⟩ |
    ⟨_, rfl⟩ | ⟨_, rfl⟩
  · exact hs
  · intro m hm k hk
    rcases List.mem_append.1 hm with hmem | hmem
    · exact hs m hmem k hk
    · rw [List.mem_singleton.1 hmem]
      rfl
  · exact hflush s0 hs0
  · by_cases hm : (s.nwr.MainRecord rt).isSome
    · rw [if_pos hm] at hs0
      exact hflush s0 hs0
    · rw [if_neg hm] at hs0
      cases hs0
      exact hs
  · exact hs
  · exact hs

/-- C15: in every state the graph builder ends in, no transaction map has a key
other than NWR, in the heap and hence in every Group of the File; and the
sequence GRH g, REV r, GRT files, under key NWR, a Transaction whose main-record
slot is {REV: r}. -/
theorem transactions_key_NWR :
    (∀ (recordObjs : IntMap) (s : BuilderState), graphBuilder recordObjs = .ok s →
      (∀ m ∈ s.heap, ∀ k, k ≠ lit "NWR" → m k = none) ∧
      ∀ g ∈ (fileOf s).Groups, ∀ m, g.Transactions = some m →
        ∀ k, k ≠ lit "NWR" → m k = none) ∧
    (∀ g r x : Cid, ∃ s,
      graphBuilder (denseMap [tagged (lit "GRH") g, tagged (lit "REV") r, tagged (lit "GRT") x])
        = .ok s ∧
      fileOf s =
        { Records := mapEmpty
          Groups := [{ Record := some g
                       Transactions := some (mapSet mapEmpty (lit "NWR")
                         [{ MainRecord := mapSet mapEmpty (lit "REV") r
                            DetailRecords := mapSet mapEmpty (lit "SPU") [] }]) }] }) := by
  constructor
  · intro recordObjs s h
    have hheap : ∀ m ∈ s.heap, ∀ k, k ≠ lit "NWR" → m k = none :=
      loopOver_invariant (fun s => ∀ m ∈ s.heap, ∀ k, k ≠ lit "NWR" → m k = none)
        (fun s s1 rt c hs hst => heap_keys_step s s1 rt c hs hst) recordObjs _ _ s
        (fun m hm => by cases hm) h
    refine ⟨hheap, fun g hg m hm k hk => ?_⟩
    simp only [fileOf, List.mem_map] at hg
    obtain ⟨g0, _, rfl⟩ := hg
    simp only [groupValue] at hm
    cases ha : g0.Transactions with
    | none => simp [ha] at hm
    | some a =>
      simp only [ha, Option.some_bind] at hm
      exact hheap m (List.getElem?_mem hm) k hk
  · intro g r x
    rw [graphBuilder_dense]
    simp only [runObjs, visitObj, tagged, step_GRH, step_REV, step_GRT]
    exact ⟨_, rfl, rfl⟩

/-- Witness for C15: the sequence GRH 1, REV 2, GRT 3. -/
theorem transactions_key_NWR_witness :
    ∃ s, graphBuilder (denseMap [tagged (lit "GRH") 1, tagged (lit "REV") 2, tagged (lit "GRT") 3])
        = .ok s ∧
      ∀ g ∈ (fileOf s).Groups, ∀ m, g.Transactions = some m →
        ∀ k, k ≠ lit "NWR" → m k = none :=
  ⟨_, rfl, (transactions_key_NWR.1
    (denseMap [tagged (lit "GRH") 1, tagged (lit "REV") 2, tagged (lit "GRT") 3]) _ rfl).2⟩


theorem flush_open (s : BuilderState)
    (hopen : ∃ a, s.group.Transactions = some a ∧ a < s.heap.length) :
    ∃ s0, flush s = some s0 := by
  obtain ⟨a, ha, hlt⟩ := hopen
  unfold flush
  simp only [ha, List.getElem?_eq_getElem hlt]
  exact ⟨_, rfl⟩

theorem step_open (s : BuilderState) (rt : GoString) (c : Cid)
    (hopen : ∃ a, s.group.Transactions = some a ∧ a < s.heap.length) :
    ∃ s1, step s rt c = some s1 := by
  obtain ⟨s0, hs0⟩ := flush_open s hopen
  unfold step
  split_ifs <;> simp [hs0, andThen_some]

theorem wf_init : BuilderState.init.WF :=
  ⟨fun g hg => (by cases hg), fun a ha => (by cases ha)⟩

theorem wf_step (s s1 : BuilderState) (rt : GoString) (c : Cid) (hwf : s.WF)
    (h : step s rt c = some s1) : s1.WF := by
  have hflush : ∀ s0, flush s = some s0 → s0.WF := by
    intro s0 h0
    obtain ⟨a, m, _, _, rfl⟩ := flush_spec s s0 h0
    refine ⟨fun g hg b hb => ?_, fun b hb => ?_⟩
    · simpa using hwf.1 g hg b hb
    · simpa using hwf.2 b hb
  have hgrt : ∀ s0 : BuilderState, s0.WF →
      BuilderState.WF { s0 with cwr := { s0.cwr with Groups := s0.cwr.Groups ++ [s0.group] } } := by
    intro s0 h0
    refine ⟨fun g hg b hb => ?_, h0.2⟩
    rcases List.mem_append.1 hg with hmem | hmem
    · exact h0.1 g hmem b hb
    · rw [List.mem_singleton.1 hmem] at hb
      exact h0.2 b hb
  rcases step_spec s s1 rt c h with ⟨_, rfl⟩ | ⟨_, rfl⟩ | ⟨_, s0, hs0, rfl⟩ | ⟨_, s0, hs0, rfl⟩ |
    ⟨_, rfl⟩ | ⟨_, rfl⟩
  · exact hwf
  · refine ⟨fun g hg b hb => ?_, fun b hb => ?_⟩
    · have := hwf.1 g hg b hb
      simp only [List.length_append, List.length_singleton]
      omega
    · simp only [Option.some.injEq] at hb
      simp only [List.length_append, List.length_singleton]
      omega
  · exact hgrt s0 (hflush s0 hs0)
  · by_cases hm : (s.nwr.MainRecord rt).isSome
    · rw [if_pos hm] at hs0
      exact hflush s0 hs0
    · rw [if_neg hm] at hs0
      cases hs0
      exact hwf
  · exact hwf
  · exact hwf

theorem groupValue_append (heap : Heap) (m : StrMap (List Transaction)) (g : Group)
    (hg : ∀ a, g.Transactions = some a → a < heap.length) :
    groupValue (heap ++ [m]) g = groupValue heap g := by
  unfold groupValue
  cases ha : g.Transactions with
  | none => rfl
  | some a =>
    simp only [Option.some_bind]
    rw [List.getElem?_append_left (hg a ha)]

/-- C18: in every builder state the GRH step succeeds, sets the in-progress
Group's header to the object's identifier and its transaction map to a fresh
empty map, and leaves unchanged the in-progress Transaction (main-record slot
and detail map), the pending detail accumulator, the File's Records and every
Group already appended to the File. `hwf` says that the map references of the
state point into the heap, which holds in every state the builder reaches
(`wf_init`, `wf_step`). -/
theorem step_GRH_frame (s : BuilderState) (c : Cid) (hwf : s.WF) :
    ∃ s1 a, step s (lit "GRH") c = some s1 ∧
      s1.group = { Record := some c, Transactions := some a } ∧
      s1.heap[a]? = some mapEmpty ∧
      s1.nwr = s.nwr ∧ s1.spus = s.spus ∧
      s1.cwr = s.cwr ∧ fileOf s1 = fileOf s := by
  refine ⟨_, s.heap.length, step_GRH s c, rfl, ?_, rfl, rfl, rfl, ?_⟩
  · simp
  · simp only [fileOf, File.mk.injEq, true_and]
    exact List.map_congr_left fun g hg => groupValue_append s.heap mapEmpty g (hwf.1 g hg)

/-- Witness for C18: a state with a header slot, one Group in the File, a main
record and one pending detail. -/
theorem step_GRH_frame_witness :
    ∃ s1 a, step
        { cwr := { Records := mapSet mapEmpty (lit "HDR") 1
                   Groups := [{ Record := some 2, Transactions := some 0 }] }
          nwr := { MainRecord := mapSet mapEmpty (lit "NWR") 4, DetailRecords := mapEmpty }
          spus := [5]
          group := { Record := some 2, Transactions := some 0 }
          heap := [mapEmpty] } (lit "GRH") 6 = some s1 ∧
      s1.group = { Record := some 6, Transactions := some a } ∧
      s1.heap[a]? = some mapEmpty ∧
      s1.nwr = { MainRecord := mapSet mapEmpty (lit "NWR") 4, DetailRecords := mapEmpty } ∧
      s1.spus = [5] ∧
      s1.cwr = { Records := mapSet mapEmpty (lit "HDR") 1
                 Groups := [{ Record := some 2, Transactions := some 0 }] } ∧
      fileOf s1 = fileOf
        { cwr := { Records := mapSet mapEmpty (lit "HDR") 1
                   Groups := [{ Record := some 2, Transactions := some 0 }] }
          nwr := { MainRecord := mapSet mapEmpty (lit "NWR") 4, DetailRecords := mapEmpty }
          spus := [5]
          group := { Record := some 2, Transactions := some 0 }
          heap := [mapEmpty] } :=
  step_GRH_frame _ 6 ⟨by simp, by simp⟩

/-- C11, the code at the failing input GRH 1, NWR 2, REV 3, GRT 4: the REV
object finds no main record under its own tag, so nothing is flushed, and the
Transaction filed by GRT holds two main records, NWR: 2 and REV: 3. -/
theorem two_main_records :
    ∃ s, graphBuilder (denseMap [tagged (lit "GRH") 1, tagged (lit "NWR") 2,
          tagged (lit "REV") 3, tagged (lit "GRT") 4]) = .ok s ∧
      fileOf s =
        { Records := mapEmpty
          Groups := [{ Record := some 1
                       Transactions := some (mapSet mapEmpty (lit "NWR")
                         [{ MainRecord := mapSet (mapSet mapEmpty (lit "NWR") 2) (lit "REV") 3
                            DetailRecords := mapSet mapEmpty (lit "SPU") [] }]) }] } :=
  ⟨_, rfl, rfl⟩

/-- C12, the code at the failing input: a sequence whose only object is a group
trailer. `group.Transactions` is still the nil map of `var group Group`, and
the write of line 165 panics. -/
theorem graphBuilder_GRT_first_panics :
    graphBuilder (denseMap [tagged (lit "GRT") 1]) = .panic := rfl

/-- C20, the code at the failing input: a group trailer at index 0 and an object
whose record type cannot be read at index 1. The loop panics at index 0 (write
to the nil map `group.Transactions`) and the error of index 1 is never
returned. -/
theorem ConvertCWR_panics_before_tag_error (encode : File → Except Error Object)
    (put : Object → Option Error) :
    ConvertCWR encode put
      [⟨some (tagged (lit "GRT") 1), 0, none⟩,
       ⟨some { recordType := .error "record_type missing", cid := 2 }, 1, none⟩] = .panic := rfl


theorem step_dangling (n0 : Nat) (s s1 : BuilderState) (rt : GoString) (c : Cid)
    (hrt : rt ≠ lit "GRT")
    (hopen : ∃ a, s.group.Transactions = some a ∧ n0 ≤ a ∧ a < s.heap.length)
    (h : step s rt c = some s1) :
    s1.cwr.Groups = s.cwr.Groups ∧ (∀ i, i < n0 → s1.heap[i]? = s.heap[i]?) ∧
      ∃ a, s1.group.Transactions = some a ∧ n0 ≤ a ∧ a < s1.heap.length := by
  obtain ⟨a, ha, hle, hlt⟩ := hopen
  have hflush : ∀ s0, flush s = some s0 →
      s0.cwr.Groups = s.cwr.Groups ∧ (∀ i, i < n0 → s0.heap[i]? = s.heap[i]?) ∧
        ∃ a, s0.group.Transactions = some a ∧ n0 ≤ a ∧ a < s0.heap.length := by
    intro s0 h0
    obtain ⟨b, m, hb, _, rfl⟩ := flush_spec s s0 h0
    rw [ha] at hb
    cases hb
    refine ⟨rfl, fun i hi => ?_, a, ha, hle, by simpa using hlt⟩
    exact List.getElem?_set_ne (by omega)
  rcases step_spec s s1 rt c h with ⟨_, rfl⟩ | ⟨_, rfl⟩ | ⟨h3, _⟩ | ⟨_, s0, hs0, rfl⟩ |
    ⟨_, rfl⟩ | ⟨_, rfl⟩
  · exact ⟨rfl, fun _ _ => rfl, a, ha, hle, hlt⟩
  · refine ⟨rfl, fun i hi => ?_, s.heap.length, rfl, by omega, by simp⟩
    exact List.getElem?_append_left (by omega)
  · exact absurd h3 hrt
  · by_cases hm : (s.nwr.MainRecord rt).isSome
    · rw [if_pos hm] at hs0
      exact hflush s0 hs0
    · rw [if_neg hm] at hs0
      cases hs0
      exact ⟨rfl, fun _ _ => rfl, a, ha, hle, hlt⟩
  · exact ⟨rfl, fun _ _ => rfl, a, ha, hle, hlt⟩
  · exact ⟨rfl, fun _ _ => rfl, a, ha, hle, hlt⟩

theorem runObjs_dangling (n0 : Nat) (mid : List (GoString × Cid))
    (hmid : ∀ p ∈ mid, p.1 ≠ lit "GRT") (s : BuilderState)
    (hopen : ∃ a, s.group.Transactions = some a ∧ n0 ≤ a ∧ a < s.heap.length) :
    ∃ s1, runObjs (mid.map fun p => tagged p.1 p.2) s = .ok s1 ∧
      s1.cwr.Groups = s.cwr.Groups ∧ (∀ i, i < n0 → s1.heap[i]? = s.heap[i]?) ∧
      ∃ a, s1.group.Transactions = some a ∧ n0 ≤ a ∧ a < s1.heap.length := by
  induction mid generalizing s with
  | nil => exact ⟨s, rfl, rfl, fun _ _ => rfl, hopen⟩
  | cons p rest ih =>
    obtain ⟨a, ha, hle, hlt⟩ := hopen
    obtain ⟨s0, hs0⟩ := step_open s p.1 p.2 ⟨a, ha, hlt⟩
    obtain ⟨hg0, hh0, hopen0⟩ :=
      step_dangling n0 s s0 p.1 p.2 (hmid p (List.mem_cons_self _ _)) ⟨a, ha, hle, hlt⟩ hs0
    obtain ⟨s1, hrun, hg1, hh1, hopen1⟩ :=
      ih (fun q hq => hmid q (List.mem_cons_of_mem _ hq)) s0 hopen0
    refine ⟨s1, ?_, hg1.trans hg0, fun i hi => (hh1 i hi).trans (hh0 i hi), hopen1⟩
    simp only [List.map_cons, runObjs, visitObj, tagged, hs0]
    exact hrun

/-- C16, amended: from a state `s`, a group header g1, then objects `mid` with
readable tags other than GRT, then a second group header g2 are processed
without failure, and the dangling group is dropped: after the second header the
File's groups are those of `s`, and the in-progress Group is the new one,
header g2 with an empty transaction map. The main-record slot and the pending
detail accumulator are not touched by the second header, so what is pending is
filed in the second group: GRH g1, NWR w, SPU d1..dj, GRH g2, GRT gives one
Group, header g2, whose Transaction has main record w and detail list d1..dj. -/
theorem dangling_group (s : BuilderState) (hwf : s.WF) (g1 g2 : Cid)
    (mid : List (GoString × Cid)) (hmid : ∀ p ∈ mid, p.1 ≠ lit "GRT") :
    (∃ s1 s2 a,
      runObjs (tagged (lit "GRH") g1 :: mid.map fun p => tagged p.1 p.2) s = .ok s1 ∧
      step s1 (lit "GRH") g2 = some s2 ∧
      (fileOf s2).Groups = (fileOf s).Groups ∧
      s2.group = { Record := some g2, Transactions := some a } ∧
      s2.heap[a]? = some mapEmpty ∧
      s2.nwr = s1.nwr ∧ s2.spus = s1.spus) ∧
    ∀ (w x : Cid) (ds : List Cid), ∃ s3,
      graphBuilder (denseMap ([tagged (lit "GRH") g1, tagged (lit "NWR") w]
          ++ ds.map (tagged (lit "SPU")) ++ [tagged (lit "GRH") g2, tagged (lit "GRT") x]))
        = .ok s3 ∧
      fileOf s3 =
        { Records := mapEmpty
          Groups := [{ Record := some g2
                       Transactions := some (mapSet mapEmpty (lit "NWR")
                         [{ MainRecord := mapSet mapEmpty (lit "NWR") w
                            DetailRecords := mapSet mapEmpty (lit "SPU") ds }]) }] } := by
  constructor
  · obtain ⟨s1, hrun, hg1, hh1, a1, ha1, hle1, hlt1⟩ :=
      runObjs_dangling s.heap.length mid hmid
        { s with
          group := { Record := some g1, Transactions := some s.heap.length }
          heap := s.heap ++ [mapEmpty] }
        ⟨s.heap.length, rfl, Nat.le_refl _, by simp⟩
    refine ⟨s1, _, s1.heap.length, ?_, step_GRH s1 g2, ?_, rfl, by simp, rfl, rfl⟩
    · simp only [runObjs, visitObj, tagged, step_GRH]
      exact hrun
    · simp only [fileOf]
      rw [hg1]
      refine List.map_congr_left fun g hg => ?_
      unfold groupValue
      cases hga : g.Transactions with
      | none => rfl
      | some b =>
        have hb : b < s.heap.length := hwf.1 g hg b hga
        simp only [Option.some_bind]
        rw [List.getElem?_append_left (by omega), hh1 b hb, List.getElem?_append_left hb]
  · intro w x ds
    rw [graphBuilder_dense, runObjs_append, runObjs_append]
    simp only [runObjs, visitObj, tagged, step_GRH, step_NWR, step_GRT, runObjs_SPU]
    exact ⟨_, rfl, rfl⟩

/-- Witness for C16, amended: GRH 1, NWR 2, SPU 3, GRH 4 from the initial state. -/
theorem dangling_group_witness :
    (∃ s1 s2 a,
      runObjs (tagged (lit "GRH") 1 ::
          [(lit "NWR", 2), (lit "SPU", 3)].map fun p => tagged p.1 p.2) BuilderState.init
        = .ok s1 ∧
      step s1 (lit "GRH") 4 = some s2 ∧
      (fileOf s2).Groups = (fileOf BuilderState.init).Groups ∧
      s2.group = { Record := some 4, Transactions := some a } ∧
      s2.heap[a]? = some mapEmpty ∧
      s2.nwr = s1.nwr ∧ s2.spus = s1.spus) :=
  (dangling_group BuilderState.init wf_init 1 4 [(lit "NWR", 2), (lit "SPU", 3)]
    (by decide)).1

/-- Counterexample to C16: for GRH 1, NWR 2, SPU 3, GRH 4, GRT 5 the File's only
Group has header 4 and holds a Transaction with main record 2 and detail list
[3], the identifiers of the objects that lie between the two headers. -/
theorem dangling_group_leaks :
    ∃ s m t, graphBuilder (denseMap [tagged (lit "GRH") 1, tagged (lit "NWR") 2,
          tagged (lit "SPU") 3, tagged (lit "GRH") 4, tagged (lit "GRT") 5]) = .ok s ∧
      (fileOf s).Groups = [{ Record := some 4, Transactions := some m }] ∧
      m (lit "NWR") = some [t] ∧
      t.MainRecord (lit "NWR") = some 2 ∧ t.DetailRecords (lit "SPU") = some [3] :=
  ⟨_, _, _, rfl, rfl, rfl, rfl, rfl⟩


/-! ## Theorems: worker pool and collector -/

theorem collector_snd_filter (rs : List objectResult) (acc acc1 : Option Error × IntMap)
    (hacc : acc.2 = acc1.2) :
    (rs.foldl collectStep acc).2
      = ((rs.filter fun r => r.err.isNone).foldl collectStep acc1).2 := by
  induction rs generalizing acc acc1 with
  | nil => exact hacc
  | cons r rest ih =>
    cases hr : r.err with
    | some e =>
      have hf : (List.filter (fun r => r.err.isNone) (r :: rest))
          = List.filter (fun r => r.err.isNone) rest := by
        simp [List.filter, hr]
      rw [List.foldl_cons, hf]
      exact ih _ _ (by simp [collectStep, hr, hacc])
    | none =>
      have hf : (List.filter (fun r => r.err.isNone) (r :: rest))
          = r :: List.filter (fun r => r.err.isNone) rest := by
        simp [List.filter, hr]
      rw [List.foldl_cons, hf, List.foldl_cons]
      exact ih _ _ (by simp [collectStep, hr, hacc])

theorem intMap_ext (m1 m2 : IntMap) (he : m1.entries = m2.entries) (hl : m1.len = m2.len) :
    m1 = m2 := by
  cases m1
  cases m2
  simp only at he hl
  rw [he, hl]

theorem collector_dense (rs0 : List objectResult) (objs : List Object)
    (hidx : (rs0.map fun r => r.index) = List.range rs0.length)
    (hok : ∀ r ∈ rs0, r.err = none)
    (hobj : (rs0.map fun r => r.obj) = objs.map some) :
    collector rs0 = (none, denseMap objs) := by
  have hnodup : (rs0.map fun r => r.index).Nodup := by
    rw [hidx]
    exact List.nodup_range _
  have hlen : objs.length = rs0.length := by
    have := congrArg List.length hobj
    simpa using this.symm
  have h1 : (collector rs0).1 = none := by
    have := collector_error rs0 (none, IntMap.empty)
    have he : errorsOf rs0 = [] := by
      unfold errorsOf
      rw [List.filterMap_eq_nil_iff]
      exact hok
    rw [he] at this
    simpa [collector] using this
  have h2 : (collector rs0).2 = denseMap objs := by
    apply intMap_ext
    · funext i
      by_cases hi : i < rs0.length
      · have hr : rs0[i]? = some rs0[i] := List.getElem?_eq_getElem hi
        have hri : rs0[i].index = i := by
          have := congrArg (fun l => l[i]?) hidx
          simp only [List.getElem?_map, hr, Option.map_some', List.getElem?_range hi,
            Option.some.injEq] at this
          exact this
        have hro : objs[i]?.map some = some rs0[i].obj := by
          have := congrArg (fun l => l[i]?) hobj
          simp only [List.getElem?_map, hr, Option.map_some'] at this
          exact this.symm
        have := foldl_collect_entries rs0 (none, IntMap.empty) hok hnodup rs0[i]
          (List.getElem_mem _)
        rw [hri] at this
        show (List.foldl collectStep (none, IntMap.empty) rs0).2.entries i = _
        rw [this]
        simp only [denseMap]
        exact hro.symm
      · have hnot : i ∉ rs0.map fun r => r.index := by
          rw [hidx, List.mem_range]
          exact hi
        show (List.foldl collectStep (none, IntMap.empty) rs0).2.entries i = _
        rw [foldl_collect_other rs0 _ i hnot]
        have : objs[i]? = none := List.getElem?_eq_none (by omega)
        simp [denseMap, IntMap.empty, this]
    · show (List.foldl collectStep (none, IntMap.empty) rs0).2.len = _
      rw [foldl_collect_len rs0 _ hok hnodup (fun _ _ => rfl)]
      simp [IntMap.empty, denseMap, hlen]
  exact Prod.ext h1 h2


theorem newRecord_recordType_ne (trimSpace : GoString → GoString) (line : GoString) (r : Record)
    (e : Option Error) (h : newRecord trimSpace line = some (some r, e)) :
    r.RecordType ≠ [] := by
  by_cases htag : line.take 3 ∈ supportedTags
  · obtain ⟨r0, hr0, hrt, _⟩ := newRecord_supported trimSpace line htag
    rw [hr0] at h
    simp only [Option.some.injEq, Prod.mk.injEq] at h
    rw [← h.1, hrt]
    have hlen := tag_length line htag
    intro h0
    have := congrArg List.length h0
    simp only [List.length_take, List.length_nil] at this
    omega
  · rw [newRecord_unsupported trimSpace line htag] at h
    simp at h

theorem reportAndClose_spec (closedFirst : Bool) (alive : Nat) (err : Option Error)
    (d : Dispatched) (hd : reportAndClose closedFirst alive err = some d) :
    d.jobs = [] ∧ (∀ r ∈ d.results, r.err.isNone = false) ∧ d.closed = true := by
  cases err with
  | none =>
    simp only [reportAndClose, Option.some.injEq] at hd
    subst hd
    simp
  | some e =>
    simp only [reportAndClose] at hd
    split at hd
    · cases hd
    · simp only [Option.some.injEq] at hd
      subst hd
      simp

theorem reportAndClose_alive (closedFirst : Bool) (alive : Nat) (err : Option Error)
    (h : 0 < alive) : ∃ d, reportAndClose closedFirst alive err = some d := by
  cases err with
  | none => exact ⟨_, rfl⟩
  | some e =>
    have : ¬ (alive = 0 ∧ closedFirst = true) := fun hc => by omega
    exact ⟨⟨[], [⟨none, 0, some e⟩], true⟩, by simp only [reportAndClose, if_neg this]⟩

theorem dispatchLoop_spec (trimSpace : GoString → GoString)
    (encode : Record → Except Error Object) (put : Object → Option Error) (closedFirst : Bool)
    (scanErr : Option Error) (lines : List GoString) :
    ∀ (idx alive : Nat) (d : Dispatched),
      dispatchLoop trimSpace encode put closedFirst scanErr lines idx alive = some d →
      d.jobs.map (fun job => job.index) = List.range' idx d.jobs.length ∧
      (∀ job ∈ d.jobs, job.record.RecordType ≠ []) ∧
      (∀ r ∈ d.results, r.err.isNone = false) ∧
      (d.jobs.map fun job => job.record)
        <+: lines.filterMap (fun line => (newRecord trimSpace line).bind fun p => p.1) ∧
      (0 < alive → (∀ job ∈ d.jobs, workerStops encode put job = false) →
        d.closed = true ∧
        d.jobs.map (fun job => job.record)
          = lines.filterMap (fun line => (newRecord trimSpace line).bind fun p => p.1) ∧
        d.jobs.length
          = (lines.filter fun line => decide (line.take 3 ∈ supportedTags)).length) := by
  induction lines with
  | nil =>
    intro idx alive d hd
    obtain ⟨hj, hr, hc⟩ := reportAndClose_spec closedFirst alive scanErr d hd
    exact ⟨by simp [hj], by simp [hj], hr, by simp [hj],
      fun _ _ => ⟨hc, by simp [hj], by simp [hj]⟩⟩
  | cons line rest ih =>
    intro idx alive d hd
    by_cases h : line.take 3 ∈ supportedTags
    · obtain ⟨r, hr, _⟩ := newRecord_supported trimSpace line h
      have hne := newRecord_recordType_ne trimSpace line r none hr
      cases alive with
      | zero =>
        simp only [dispatchLoop, hr, Option.some.injEq] at hd
        subst hd
        simp
      | succ running =>
        simp only [dispatchLoop, hr, Option.map_eq_some'] at hd
        obtain ⟨d0, hd0, hdd⟩ := hd
        obtain ⟨hidx, hrt, hres, hpre, hall⟩ := ih _ _ d0 hd0
        subst hdd
        refine ⟨?_, ?_, hres, ?_, ?_⟩
        · simp [hidx, List.range'_succ]
        · intro job hjob
          rcases List.mem_cons.1 hjob with hj | hj
          · subst hj
            exact hne
          · exact hrt job hj
        · simpa [hr] using hpre
        · intro _ hok
          have hstop : workerStops encode put ⟨r, idx⟩ = false :=
            hok _ (List.mem_cons_self _ _)
          rw [hstop] at hall
          obtain ⟨hc, hrec, hlen⟩ :=
            hall (Nat.succ_pos _) fun job hjob => hok job (List.mem_cons_of_mem _ hjob)
          refine ⟨hc, ?_, ?_⟩
          · simp [hr, hrec]
          · simp [h, hlen]
    · have hr := newRecord_unsupported trimSpace line h
      simp only [dispatchLoop, hr] at hd
      obtain ⟨hidx, hrt, hres, hpre, hall⟩ := ih idx alive d hd
      refine ⟨hidx, hrt, hres, ?_, ?_⟩
      · simpa [hr] using hpre
      · intro ha hok
        obtain ⟨hc, hrec, hlen⟩ := hall ha hok
        exact ⟨hc, by simp [hr, hrec], by simp [h, hlen]⟩

theorem dispatchLoop_received (trimSpace : GoString → GoString)
    (encode : Record → Except Error Object) (put : Object → Option Error) (closedFirst : Bool)
    (scanErr : Option Error) (lines : List GoString)
    (hok : ∀ line ∈ lines, ∀ r e, newRecord trimSpace line = some (some r, e) →
      ∀ i, workerStops encode put ⟨r, i⟩ = false) :
    ∀ (idx alive : Nat), 0 < alive →
      ∃ d, dispatchLoop trimSpace encode put closedFirst scanErr lines idx alive = some d ∧
        ∀ job ∈ d.jobs, workerStops encode put job = false := by
  induction lines with
  | nil =>
    intro idx alive ha
    obtain ⟨d, hd⟩ := reportAndClose_alive closedFirst alive scanErr ha
    refine ⟨d, hd, ?_⟩
    rw [(reportAndClose_spec closedFirst alive scanErr d hd).1]
    intro job hjob
    cases hjob
  | cons line rest ih =>
    intro idx alive ha
    have ih1 := ih fun l hl => hok l (List.mem_cons_of_mem _ hl)
    by_cases h : line.take 3 ∈ supportedTags
    · obtain ⟨r, hr, _⟩ := newRecord_supported trimSpace line h
      have hstop := hok line (List.mem_cons_self _ _) r none hr idx
      obtain ⟨running, rfl⟩ : ∃ running, alive = running + 1 := ⟨alive - 1, by omega⟩
      obtain ⟨d0, hd0, hj0⟩ := ih1 (idx + 1) (running + 1) (Nat.succ_pos _)
      refine ⟨{ d0 with jobs := ⟨r, idx⟩ :: d0.jobs }, ?_, ?_⟩
      · simp [dispatchLoop, hr, hstop, hd0]
      · intro job hjob
        rcases List.mem_cons.1 hjob with hj | hj
        · subst hj
          exact hstop
        · exact hj0 job hj
    · have hr := newRecord_unsupported trimSpace line h
      obtain ⟨d0, hd0, hj0⟩ := ih1 idx alive ha
      exact ⟨d0, by simp [dispatchLoop, hr, hd0], hj0⟩

/-- The jobs of the dispatcher when no record of the input makes a worker
return: every send of line 119 is received, so the dispatcher sends exactly the
records `newRecord` yields, one job each and in line order, the k-th job with
index k, and closes the job queue. -/
theorem dispatcher_jobs_received (trimSpace : GoString → GoString)
    (encode : Record → Except Error Object) (put : Object → Option Error) (closedFirst : Bool)
    (lines : List GoString) (scanErr : Option Error)
    (hok : ∀ line ∈ lines, ∀ r e, newRecord trimSpace line = some (some r, e) →
      ∀ i, workerStops encode put ⟨r, i⟩ = false) :
    ∃ d, dispatcher trimSpace encode put closedFirst lines scanErr = some d ∧
      d.closed = true ∧
      d.jobs.map (fun job => job.record)
        = lines.filterMap (fun line => (newRecord trimSpace line).bind fun p => p.1) ∧
      d.jobs.map (fun job => job.index) = List.range d.jobs.length ∧
      d.jobs.length = (lines.filter fun line => decide (line.take 3 ∈ supportedTags)).length := by
  obtain ⟨d, hd, hj⟩ := dispatchLoop_received trimSpace encode put closedFirst scanErr lines hok
    0 concurrentWorkNum (by decide)
  obtain ⟨hidx, _, _, _, hall⟩ :=
    dispatchLoop_spec trimSpace encode put closedFirst scanErr lines 0 concurrentWorkNum d hd
  obtain ⟨hc, hrec, hlen⟩ := hall (by decide) hj
  exact ⟨d, hd, hc, hrec, by rw [hidx, List.range_eq_range'], hlen⟩

theorem dispatcher_spec (trimSpace : GoString → GoString)
    (encode : Record → Except Error Object) (put : Object → Option Error) (closedFirst : Bool)
    (lines : List GoString) (scanErr : Option Error) (d : Dispatched)
    (hd : dispatcher trimSpace encode put closedFirst lines scanErr = some d) :
    d.jobs.map (fun job => job.index) = List.range d.jobs.length ∧
    (∀ job ∈ d.jobs, job.record.RecordType ≠ []) ∧
    (∀ r ∈ d.results, r.err.isNone = false) ∧
    ((∀ job ∈ d.jobs, workerStops encode put job = false) →
      d.closed = true ∧
      d.jobs.map (fun job => job.record)
        = lines.filterMap (fun line => (newRecord trimSpace line).bind fun p => p.1)) := by
  obtain ⟨hidx, hne, hres, _, hall⟩ :=
    dispatchLoop_spec trimSpace encode put closedFirst scanErr lines 0 concurrentWorkNum d hd
  refine ⟨by rw [hidx, List.range_eq_range'], hne, hres, fun hok => ?_⟩
  obtain ⟨hc, hrec, _⟩ := hall (by decide) hok
  exact ⟨hc, hrec⟩

theorem workerStops_ok (encode : Record → Except Error Object) (put : Object → Option Error)
    (job : recordJob) (obj : Object) (henc : encode job.record = .ok obj) (hput : put obj = none) :
    workerStops encode put job = false := by
  unfold workerStops
  split
  · simp [henc, hput]
  · rfl

theorem worker_all_ok (encode : Record → Except Error Object) (put : Object → Option Error)
    (jobs : List recordJob)
    (h : ∀ job ∈ jobs, job.record.RecordType ≠ [] ∧
      ∃ obj, encode job.record = .ok obj ∧ put obj = none) :
    worker encode put jobs
      = jobs.map fun job => ⟨(encode job.record).toOption, job.index, none⟩ := by
  induction jobs with
  | nil => rfl
  | cons job rest ih =>
    obtain ⟨hne, obj, henc, hput⟩ := h job (List.mem_cons_self _ _)
    have ih1 := ih fun j hj => h j (List.mem_cons_of_mem _ hj)
    simp only [worker, hne, ne_eq, not_false_eq_true, if_true, henc, hput, List.map_cons, ih1,
      Except.toOption]

theorem forall₂_results (encode : Record → Except Error Object) (put : Object → Option Error)
    (jobs : List recordJob) (objs : List Object)
    (hall : List.Forall₂ (fun job obj => encode job.record = .ok obj ∧ put obj = none)
      jobs objs) :
    (∀ job ∈ jobs, ∃ obj, encode job.record = .ok obj ∧ put obj = none) ∧
    (jobs.map fun job => (⟨(encode job.record).toOption, job.index, none⟩ : objectResult))
      = List.zipWith (fun job obj => ⟨some obj, job.index, none⟩) jobs objs ∧
    (jobs.map fun job => (encode job.record).toOption) = objs.map some := by
  induction hall with
  | nil => exact ⟨fun _ h => (by cases h), rfl, rfl⟩
  | cons hhead _ ih =>
    refine ⟨fun job hjob => ?_, ?_, ?_⟩
    · rcases List.mem_cons.1 hjob with h | h
      · subst h
        exact ⟨_, hhead⟩
      · exact ih.1 job h
    · rw [List.map_cons, List.zipWith_cons_cons, ih.2.1, hhead.1]
      rfl
    · rw [List.map_cons, List.map_cons, ih.2.2, hhead.1]
      rfl

/-- C13: let `d` be what the dispatcher sends, let every dispatched record encode
and store successfully (`objs` are the encoded objects, in line order), let
`split` be the jobs each worker receives (every job is received by exactly one
worker) and `rs` any arrival order of the workers' results and the dispatcher's.
Then the guard of line 242 holds for every job, the workers send exactly one
success result per job, carrying the job's index, the collected map is the
dense one (keys 0, ..., n-1 holding the objects in line order), and the graph
builder's loop visits the objects once each, in line order. No worker returns
before the job queue is closed, so the dispatched jobs are the records of all
the lines and the dispatcher closes the job queue. -/
theorem worker_pool_dense (trimSpace : GoString → GoString)
    (encode : Record → Except Error Object) (put : Object → Option Error)
    (closedFirst : Bool)
    (lines : List GoString) (scanErr : Option Error) (d : Dispatched) (objs : List Object)
    (split : List (List recordJob)) (rs : List objectResult)
    (hd : dispatcher trimSpace encode put closedFirst lines scanErr = some d)
    (hall : List.Forall₂ (fun job obj => encode job.record = .ok obj ∧ put obj = none)
      d.jobs objs)
    (hsplit : split.flatten.Perm d.jobs)
    (harr : rs.Perm ((split.map (worker encode put)).flatten ++ d.results)) :
    (∀ job ∈ d.jobs, job.record.RecordType ≠ []) ∧
    (split.map (worker encode put)).flatten.Perm
      (List.zipWith (fun job obj => ⟨some obj, job.index, none⟩) d.jobs objs) ∧
    (collector rs).2 = denseMap objs ∧
    graphBuilder (collector rs).2 = runObjs objs BuilderState.init ∧
    d.closed = true ∧
    d.jobs.map (fun job => job.record)
      = lines.filterMap (fun line => (newRecord trimSpace line).bind fun p => p.1) := by
  obtain ⟨hidx, hne, hres, hrecv⟩ :=
    dispatcher_spec trimSpace encode put closedFirst lines scanErr d hd
  obtain ⟨hex, hzip, hobjs⟩ := forall₂_results encode put d.jobs objs hall
  have hsent := hrecv fun job hjob => by
    obtain ⟨obj, henc, hput⟩ := hex job hjob
    exact workerStops_ok encode put job obj henc hput
  have hworkers : (split.map (worker encode put)).flatten
      = split.flatten.map fun job => ⟨(encode job.record).toOption, job.index, none⟩ := by
    rw [List.map_flatten]
    congr 1
    refine List.map_congr_left fun l hl => ?_
    refine worker_all_ok encode put l fun job hjob => ?_
    have hmem : job ∈ d.jobs := hsplit.subset (List.mem_flatten_of_mem hl hjob)
    exact ⟨hne job hmem, hex job hmem⟩
  have hperm0 : (split.map (worker encode put)).flatten.Perm
      (d.jobs.map fun job => ⟨(encode job.record).toOption, job.index, none⟩) := by
    rw [hworkers]
    exact hsplit.map _
  have hok0 : ∀ r ∈ d.jobs.map fun job =>
      (⟨(encode job.record).toOption, job.index, none⟩ : objectResult), r.err = none := by
    intro r hr
    obtain ⟨job, _, rfl⟩ := List.mem_map.1 hr
    rfl
  have hidx0 : ((d.jobs.map fun job =>
      (⟨(encode job.record).toOption, job.index, none⟩ : objectResult)).map fun r => r.index)
      = List.range (d.jobs.map fun job =>
        (⟨(encode job.record).toOption, job.index, none⟩ : objectResult)).length := by
    rw [List.map_map, List.length_map]
    exact hidx
  have hdense := collector_dense _ objs hidx0 hok0 (by rw [List.map_map]; exact hobjs)
  have hfilter : (rs.filter fun r => r.err.isNone).Perm
      (d.jobs.map fun job => ⟨(encode job.record).toOption, job.index, none⟩) := by
    refine (harr.filter _).trans ?_
    rw [List.filter_append]
    have h1 : d.results.filter (fun r => r.err.isNone) = [] := by
      rw [List.filter_eq_nil_iff]
      intro r hr
      simp [hres r hr]
    have h2 : (split.map (worker encode put)).flatten.filter (fun r => r.err.isNone)
        = (split.map (worker encode put)).flatten := by
      rw [List.filter_eq_self]
      intro r hr
      have := hok0 r (hperm0.subset hr)
      simp [this]
    rw [h1, h2, List.append_nil]
    exact hperm0
  have hmap : (collector rs).2 = denseMap objs := by
    have h1 := collector_snd_filter rs (none, IntMap.empty) (none, IntMap.empty) rfl
    have h2 := collector_perm _ _ hfilter.symm hok0 (by rw [hidx0]; exact List.nodup_range _)
    unfold collector at h2 hdense ⊢
    rw [h1, h2, hdense]
  refine ⟨hne, ?_, hmap, ?_, hsent⟩
  · rw [← hzip]
    exact hperm0
  · rw [hmap, graphBuilder_dense]


/-- Witness for C13: the lines HDR, ACK, TRL with two workers, the trailer's
result arriving first. -/
theorem worker_pool_dense_witness :
    (collector
        [⟨some (tagged (lit "TRL") 8), 1, none⟩, ⟨some (tagged (lit "HDR") 7), 0, none⟩]).2
      = denseMap [tagged (lit "HDR") 7, tagged (lit "TRL") 8] ∧
    graphBuilder (collector
        [⟨some (tagged (lit "TRL") 8), 1, none⟩, ⟨some (tagged (lit "HDR") 7), 0, none⟩]).2
      = runObjs [tagged (lit "HDR") 7, tagged (lit "TRL") 8] BuilderState.init :=
  have h := worker_pool_dense id
    (fun r => .ok (tagged r.RecordType (if r.RecordType = lit "HDR" then 7 else 8)))
    (fun _ => none) true [lit "HDR", lit "ACK", lit "TRL"] none
    ⟨[⟨{ RecordType := lit "HDR" }, 0⟩, ⟨{ RecordType := lit "TRL" }, 1⟩], [], true⟩
    [tagged (lit "HDR") 7, tagged (lit "TRL") 8]
    [[⟨{ RecordType := lit "TRL" }, 1⟩], [⟨{ RecordType := lit "HDR" }, 0⟩]]
    [⟨some (tagged (lit "TRL") 8), 1, none⟩, ⟨some (tagged (lit "HDR") 7), 0, none⟩]
    rfl
    (List.Forall₂.cons ⟨rfl, rfl⟩ (List.Forall₂.cons ⟨rfl, rfl⟩ List.Forall₂.nil))
    (List.Perm.swap _ _ _)
    (List.Perm.refl _)
  ⟨h.2.2.1, h.2.2.2.1⟩

/-- C14: if some result carries an error, ConvertCWR returns the error the
collector retained, which is one of the errors received, and no identifier,
whatever `meta.Encode` and `Store.Put` would do (the graph builder and the root
encoder are not run); error results never write to the map (the collected map
is the one built from the error-free results alone); and if no result carries
an error the collector retains none. -/
theorem collector_errors (rs : List objectResult) :
    ((∃ r ∈ rs, r.err ≠ none) →
      ∃ e, (collector rs).1 = some e ∧ e ∈ errorsOf rs ∧
        ∀ (encode : File → Except Error Object) (put : Object → Option Error),
          ConvertCWR encode put rs = .error e) ∧
    (collector rs).2 = (collector (rs.filter fun r => r.err.isNone)).2 ∧
    ((∀ r ∈ rs, r.err = none) → (collector rs).1 = none) := by
  have herr : (collector rs).1 = (errorsOf rs).getLast? := by
    have := collector_error rs (none, IntMap.empty)
    simpa [collector] using this
  refine ⟨fun hex => ?_, collector_snd_filter rs _ _ rfl, fun hok => ?_⟩
  · obtain ⟨r, hr, he⟩ := hex
    cases hre : r.err with
    | none => exact absurd hre he
    | some e0 =>
      have hmem : e0 ∈ errorsOf rs := by
        unfold errorsOf
        rw [List.mem_filterMap]
        exact ⟨r, hr, hre⟩
      cases hl : (errorsOf rs).getLast? with
      | none =>
        rw [List.getLast?_eq_none_iff] at hl
        rw [hl] at hmem
        cases hmem
      | some e =>
        rw [hl] at herr
        refine ⟨e, herr, List.mem_of_getLast?_eq_some hl, fun encode put => ?_⟩
        unfold ConvertCWR
        cases hc : collector rs with
        | mk err m =>
          rw [hc] at herr
          simp only at herr
          subst herr
          rfl
  · rw [herr]
    have : errorsOf rs = [] := by
      unfold errorsOf
      rw [List.filterMap_eq_nil_iff]
      exact hok
    rw [this]
    rfl

/-- Witness for C14: an object at index 0 followed by an error result, whose
index is 0 as well; the object stays at key 0. -/
theorem collector_errors_witness :
    (∃ e, (collector [⟨some (tagged (lit "GRT") 7), 0, none⟩, ⟨none, 0, some "put failed"⟩]).1
        = some e ∧
      e ∈ errorsOf [⟨some (tagged (lit "GRT") 7), 0, none⟩, ⟨none, 0, some "put failed"⟩] ∧
      ∀ (encode : File → Except Error Object) (put : Object → Option Error),
        ConvertCWR encode put
          [⟨some (tagged (lit "GRT") 7), 0, none⟩, ⟨none, 0, some "put failed"⟩] = .error e) ∧
    (collector [⟨some (tagged (lit "GRT") 7), 0, none⟩, ⟨none, 0, some "put failed"⟩]).2.lookup 0
      = some (tagged (lit "GRT") 7) ∧
    (collector [⟨some (tagged (lit "GRT") 7), 0, none⟩]).1 = none :=
  ⟨(collector_errors [⟨some (tagged (lit "GRT") 7), 0, none⟩, ⟨none, 0, some "put failed"⟩]).1
      ⟨⟨none, 0, some "put failed"⟩, by simp, by simp⟩,
    rfl,
    (collector_errors [⟨some (tagged (lit "GRT") 7), 0, none⟩]).2.2 (by simp)⟩

theorem worker_stops (encode : Record → Except Error Object) (put : Object → Option Error)
    (job : recordJob) (rest : List recordJob) (h : workerStops encode put job = true) :
    ∃ e, worker encode put (job :: rest) = [⟨none, 0, some e⟩] := by
  unfold workerStops at h
  unfold worker
  by_cases hne : job.record.RecordType ≠ []
  · rw [if_pos hne] at h ⊢
    cases henc : encode job.record with
    | error e => exact ⟨e, rfl⟩
    | ok obj =>
      simp only [henc] at h
      cases hput : put obj with
      | none => simp [hput] at h
      | some e => exact ⟨e, by simp [hput]⟩
  · rw [if_neg hne] at h
    cases h

/-- C17, the code at the failing input: 17 header lines and a store whose `Put`
always fails. Every worker returns after the one job it receives, so the 16
workers take 16 jobs and the send of the 17th finds no running worker: the
dispatcher stops with 16 jobs sent and never reaches `close(jobs)`. With 16
lines it does. -/
theorem dispatcher_blocks_without_workers :
    (List.replicate 17 (lit "HDR")).filterMap
        (fun line => (newRecord id line).bind fun p => p.1)
      = ((List.range 17).map fun i => (⟨{ RecordType := lit "HDR" }, i⟩ : recordJob)).map
          (fun job => job.record) ∧
    (∀ closedFirst, ∃ d,
      dispatcher id (fun r => .ok (tagged r.RecordType 1)) (fun _ => some "store unavailable")
        closedFirst (List.replicate 17 (lit "HDR")) none = some d ∧
      d.jobs = ((List.range 16).map fun i => ⟨{ RecordType := lit "HDR" }, i⟩) ∧
      d.closed = false) ∧
    (∀ job ∈ (List.range 17).map fun i => (⟨{ RecordType := lit "HDR" }, i⟩ : recordJob),
      ∀ rest,
        worker (fun r => .ok (tagged r.RecordType 1)) (fun _ => some "store unavailable")
          (job :: rest) = [⟨none, 0, some "store unavailable"⟩]) ∧
    sendsComplete (fun r => .ok (tagged r.RecordType 1)) (fun _ => some "store unavailable")
      ((List.range 17).map fun i => ⟨{ RecordType := lit "HDR" }, i⟩) concurrentWorkNum
      = false ∧
    sendsComplete (fun r => .ok (tagged r.RecordType 1)) (fun _ => some "store unavailable")
      (((List.range 17).map fun i => ⟨{ RecordType := lit "HDR" }, i⟩).take 16)
      concurrentWorkNum = true ∧
    (∀ closedFirst, ∃ d,
      dispatcher id (fun r => .ok (tagged r.RecordType 1)) (fun _ => some "store unavailable")
        closedFirst (List.replicate 16 (lit "HDR")) none = some d ∧
      d.jobs = ((List.range 16).map fun i => ⟨{ RecordType := lit "HDR" }, i⟩) ∧
      d.closed = true) := by
  refine ⟨rfl, fun _ => ⟨_, rfl, rfl, rfl⟩, ?_, rfl, rfl, fun _ => ⟨_, rfl, rfl, rfl⟩⟩
  intro job hjob rest
  obtain ⟨i, _, rfl⟩ := List.mem_map.1 hjob
  have hne : (lit "HDR") ≠ [] := by decide
  simp only [worker, hne, ne_eq, not_false_eq_true, if_true]

theorem runObjs_tag_error (pre post : List Object) (obj : Object) (s s1 : BuilderState)
    (e : Error) (hpre : runObjs pre s = .ok s1) (hobj : obj.recordType = .error e) :
    runObjs (pre ++ obj :: post) s = .error e := by
  rw [runObjs_append, hpre]
  simp only [runObjs, visitObj, hobj]


theorem ConvertCWR_tag_error (encode : File → Except Error Object) (put : Object → Option Error)
    (rs : List objectResult) (pre post : List Object) (obj : Object) (s1 : BuilderState)
    (e : Error) (hc : collector rs = (none, denseMap (pre ++ obj :: post)))
    (hpre : runObjs pre BuilderState.init = .ok s1) (hobj : obj.recordType = .error e) :
    ConvertCWR encode put rs = .error e := by
  unfold ConvertCWR
  rw [hc]
  simp only [graphBuilder_dense, runObjs_tag_error pre post obj _ s1 e hpre hobj]

theorem graphBuilder_wf (recordObjs : IntMap) (s : BuilderState)
    (h : graphBuilder recordObjs = .ok s) : s.WF :=
  loopOver_invariant BuilderState.WF (fun s s1 rt c hs hst => wf_step s s1 rt c hs hst)
    recordObjs _ _ s wf_init h

theorem step_groups_length (s s1 : BuilderState) (rt : GoString) (c : Cid)
    (h : step s rt c = some s1) :
    s1.cwr.Groups.length = s.cwr.Groups.length + if rt = lit "GRT" then 1 else 0 := by
  rcases step_spec s s1 rt c h with ⟨h1, rfl⟩ | ⟨h1, rfl⟩ | ⟨h1, s0, hs0, rfl⟩ | ⟨h1, s0, hs0, rfl⟩ |
    ⟨h1, rfl⟩ | ⟨h1, rfl⟩
  · have : rt ≠ lit "GRT" := by rcases h1 with h1 | h1 <;> rw [h1] <;> decide
    simp [this]
  · have : rt ≠ lit "GRT" := by rw [h1]; decide
    simp [this]
  · simp [h1, (flush_cwr s s0 hs0).1]
  · have : rt ≠ lit "GRT" := by rcases h1 with h1 | h1 <;> rw [h1] <;> decide
    by_cases hm : (s.nwr.MainRecord rt).isSome
    · rw [if_pos hm] at hs0
      simp [this, (flush_cwr s s0 hs0).1]
    · rw [if_neg hm] at hs0
      cases hs0
      simp [this]
  · have : rt ≠ lit "GRT" := by rw [h1]; decide
    simp [this]
  · have : rt ≠ lit "GRT" := by
      intro h0
      rw [h0] at h1
      exact h1 (by decide)
    simp [this]

theorem runObjs_groups_length (objs : List Object) (s0 s : BuilderState)
    (h : runObjs objs s0 = .ok s) :
    s.cwr.Groups.length
      = s0.cwr.Groups.length + (objs.filter (hasTag (lit "GRT"))).length := by
  induction objs generalizing s0 with
  | nil =>
    simp only [runObjs, Outcome.ok.injEq] at h
    subst h
    simp
  | cons obj rest ih =>
    simp only [runObjs] at h
    cases hv : visitObj s0 obj with
    | error e => simp [hv] at h
    | panic => simp [hv] at h
    | ok s1 =>
      simp only [hv] at h
      obtain ⟨rt, hrt, hst⟩ := visitObj_ok s0 s1 obj hv
      rw [ih s1 h, step_groups_length s0 s1 rt obj.cid hst]
      have htag : hasTag (lit "GRT") obj = decide (rt = lit "GRT") := by simp [hasTag, hrt]
      by_cases hg : rt = lit "GRT"
      · simp [List.filter, htag, hg]
        omega
      · simp [List.filter, htag, hg]

/-! ## Theorems: the Groups already in the File -/

theorem step_groups_frame (s s1 : BuilderState) (rt : GoString) (c : Cid) (hwf : s.WF)
    (hfresh : ∀ g ∈ s.cwr.Groups, ∀ a, g.Transactions = some a → s.group.Transactions ≠ some a)
    (h : step s rt c = some s1) :
    (∃ l, s1.cwr.Groups = s.cwr.Groups ++ l) ∧
    ∀ g ∈ s.cwr.Groups, groupValue s1.heap g = groupValue s.heap g := by
  have hflush : ∀ s0, flush s = some s0 →
      s0.cwr.Groups = s.cwr.Groups ∧
        ∀ g ∈ s.cwr.Groups, groupValue s0.heap g = groupValue s.heap g := by
    intro s0 h0
    obtain ⟨a, m, ha, _, rfl⟩ := flush_spec s s0 h0
    refine ⟨rfl, fun g hg => ?_⟩
    unfold groupValue
    cases hb : g.Transactions with
    | none => rfl
    | some b =>
      have hne : a ≠ b := by
        intro hab
        exact hfresh g hg b hb (by rw [ha, hab])
      simp only [Option.some_bind]
      rw [List.getElem?_set_ne hne]
  rcases step_spec s s1 rt c h with ⟨_, rfl⟩ | ⟨_, rfl⟩ | ⟨_, s0, hs0, rfl⟩ | ⟨_, s0, hs0, rfl⟩ |
    ⟨_, rfl⟩ | ⟨_, rfl⟩
  · exact ⟨⟨[], by simp⟩, fun _ _ => rfl⟩
  · exact ⟨⟨[], by simp⟩, fun g hg => groupValue_append s.heap mapEmpty g (hwf.1 g hg)⟩
  · obtain ⟨hg0, hv0⟩ := hflush s0 hs0
    exact ⟨⟨[s0.group], by simp [hg0]⟩, hv0⟩
  · by_cases hm : (s.nwr.MainRecord rt).isSome
    · rw [if_pos hm] at hs0
      obtain ⟨hg0, hv0⟩ := hflush s0 hs0
      exact ⟨⟨[], by simp [hg0]⟩, hv0⟩
    · rw [if_neg hm] at hs0
      cases hs0
      exact ⟨⟨[], by simp⟩, fun _ _ => rfl⟩
  · exact ⟨⟨[], by simp⟩, fun _ _ => rfl⟩
  · exact ⟨⟨[], by simp⟩, fun _ _ => rfl⟩

/-- C21, the code at the failing inputs. After GRH 1, GRT 2 the File holds one
Group, whose transaction map lists one Transaction under NWR. The Group appended
to the File and the variable `group` hold the same map, so a second group
trailer (no group header in between) appends to that map: the Group already in
the File now lists two Transactions. Likewise after GRH 1, GRT 2, NWR 4 the
repeated work-registration object NWR 5 flushes into that map, and the Group
already in the File goes from one Transaction to two. -/
theorem appended_group_changes :
    (∃ s s1 m m1 t t1,
      runObjs [tagged (lit "GRH") 1, tagged (lit "GRT") 2] BuilderState.init = .ok s ∧
      (fileOf s).Groups = [{ Record := some 1, Transactions := some m }] ∧
      m (lit "NWR") = some [t] ∧
      step s (lit "GRT") 3 = some s1 ∧
      (fileOf s1).Groups = [{ Record := some 1, Transactions := some m1 },
                            { Record := some 1, Transactions := some m1 }] ∧
      m1 (lit "NWR") = some [t, t1]) ∧
    (∃ s s1 m m1 t t1,
      runObjs [tagged (lit "GRH") 1, tagged (lit "GRT") 2, tagged (lit "NWR") 4]
        BuilderState.init = .ok s ∧
      (fileOf s).Groups = [{ Record := some 1, Transactions := some m }] ∧
      m (lit "NWR") = some [t] ∧
      step s (lit "NWR") 5 = some s1 ∧
      (fileOf s1).Groups = [{ Record := some 1, Transactions := some m1 }] ∧
      m1 (lit "NWR") = some [t, t1] ∧ t1.MainRecord (lit "NWR") = some 4) :=
  ⟨⟨_, _, _, _, _, _, rfl, rfl, rfl, rfl, rfl, rfl⟩,
   ⟨_, _, _, _, _, _, rfl, rfl, rfl, rfl, rfl, rfl, rfl⟩⟩

end cwr
